import Mathlib

/-!
Verification of the lexicon-editor core (entry model, validation, ordering
engine, CSV/TSV/XML codecs, merge engine) against its specification.

The TypeScript source is embedded shallowly:
* JS strings are Lean `String`s; `trim`, `split`, `join`, `toLowerCase` and
  the CSV field automaton are modelled by explicit recursive functions on
  the underlying character lists (`jsTrim`, `jsSplit`, `jsJoinS`, ...).
  `jsToLower` (per-character `Char.toLower`, which covers the ASCII-cased
  graphemes the app compares) stands in for `toLowerCase`, and the
  code-point-lexicographic order `strLt` stands in for `localeCompare`.
* The XML codec is embedded at the element-tree level (`XmlDoc`,
  `XmlLexeme`, `XmlLeaf`): `buildXML` constructs a DOM tree and `parseXML`
  traverses one; the serialisation between tree and text is done by the
  browser's `XMLSerializer`/`DOMParser`, which are outside this repository.
* Optional string fields (`alias?: string`) are `Option String`; a JS value
  that is `undefined` is `none` and a present string `s` is `some s`.
  JS truthiness of such a field is `jsTruthy` (`none` and `some ""` are
  falsy).
* Thrown exceptions are `Except String`.
* `Array.prototype.indexOf` on an element obtained from `filter` is
  modelled by carrying the element's index through an explicit
  enumeration (`enumFromIdx`), which agrees with the reference-equality
  behaviour of the source for the states the app constructs.
-/

namespace Aca

/-! ### JS string primitives -/

/-- Whitespace recognised by `String.prototype.trim` (the subset relevant
to this code base). -/
def jsWhitespaceChar (c : Char) : Bool :=
  c = ' ' || c = '\t' || c = '\n' || c = '\r' || c = '\x0b' || c = '\x0c' ||
  c = '\u00A0' || c = '\uFEFF'

/-- `trim` on the character list: drop whitespace from both ends. -/
def jsTrimChars (l : List Char) : List Char :=
  ((l.dropWhile jsWhitespaceChar).reverse.dropWhile jsWhitespaceChar).reverse

/-- Model of `s.trim()`. -/
def jsTrim (s : String) : String :=
  ⟨jsTrimChars s.data⟩

/-- Model of `s.split(sep)` for a single-character separator, on character
lists.  The accumulator holds the current field reversed. -/
def jsSplitAux (sep : Char) : List Char → List Char → List (List Char)
  | [], cur => [cur.reverse]
  | c :: cs, cur =>
    if c = sep then cur.reverse :: jsSplitAux sep cs []
    else jsSplitAux sep cs (c :: cur)

/-- Model of `s.split(sep)` for a single-character separator. -/
def jsSplit (sep : Char) (s : String) : List String :=
  (jsSplitAux sep s.data []).map (fun l => ⟨l⟩)

/-- Model of `Array.prototype.join(sep)` on character lists. -/
def joinSepChars (sep : Char) : List (List Char) → List Char
  | [] => []
  | [r] => r
  | r :: rs => r ++ sep :: joinSepChars sep rs

/-- Model of `rows.join(sep)` for a single-character separator. -/
def jsJoinS (sep : Char) (rows : List String) : String :=
  ⟨joinSepChars sep (rows.map String.data)⟩

/-- Model of `s.toLowerCase()` (ASCII case mapping, which covers every
case-insensitive comparison the claims exercise). -/
def jsToLower (s : String) : String :=
  ⟨s.data.map Char.toLower⟩

/-- Lexicographic strict order on character lists by code point; stands in
for `a.localeCompare(b) < 0`. -/
def strLtChars : List Char → List Char → Bool
  | [], [] => false
  | [], _ :: _ => true
  | _ :: _, [] => false
  | a :: as, b :: bs =>
    if a.toNat < b.toNat then true
    else if b.toNat < a.toNat then false
    else strLtChars as bs

/-- `a.localeCompare(b) < 0` as a string comparison. -/
def strLt (s t : String) : Bool :=
  strLtChars s.data t.data

/-- `a.localeCompare(b) <= 0`. -/
def strLe (s t : String) : Bool :=
  !(strLt t s)

/-- Truthiness of an optional string field: `undefined` and `''` are falsy. -/
def jsTruthy : Option String → Bool
  | none => false
  | some s => s ≠ ""

/-- Model of `a || b` on optional string fields. -/
def jsOr (a b : Option String) : Option String :=
  if jsTruthy a then a else b

/-- First character is `'#'` — models `s.startsWith('#')` as used on
trimmed lines. -/
def headIsHash (s : String) : Bool :=
  s.data.head? = some '#'

/-- Concatenation of a list of lists (used for `forEach`/`push` row
generation). -/
def listFlat {α : Type} : List (List α) → List α
  | [] => []
  | l :: ls => l ++ listFlat ls

/-- Enumeration with explicit start index (models index-aware iteration). -/
def enumFromIdx {α : Type} (i : Nat) : List α → List (Nat × α)
  | [] => []
  | x :: xs => (i, x) :: enumFromIdx (i + 1) xs

/-! ### Entry model -/

/-- `interface LexiconEntry` (src/Dockerfile:78-85). -/
structure LexiconEntry where
  graphemes : List String
  «alias» : Option String := none
  aliasSayAsType : Option String := none
  phoneme : Option String := none
  phonemeSayAsType : Option String := none
  isNew : Bool := false
  deriving DecidableEq, Repr

/-- The sentinel grapheme used to seed a new entry. -/
def NEW_ENTRY_PLACEHOLDER : String := "*** NEW ENTRY ***"

/-- The single characters of `VALID_IPA_CHARS_REGEX` (src/Dockerfile:99)
other than the `a-z` and `A-Z` ranges, deduplicated. -/
def IPA_EXTRA_CHARS : String :=
  "\u0020\u002E\u003C\u003E\u00E6\u00E7\u00F0\u00F8\u0127\u014B\u0153\u01C0\u01C1\u01C2\u01C3\u0250\u0251\u0252\u0253\u0254\u0255\u0256\u0257\u0258\u025A\u025B\u025C\u025D\u025E\u025F\u0260\u0261\u0262\u0263\u0264\u0265\u0266\u0267\u0268\u026A\u026B\u026C\u026D\u026E\u026F\u0270\u0271\u0272\u0273\u0274\u0275\u0276\u0278\u0279\u027A\u027B\u027D\u027E\u0280\u0281\u0282\u0283\u0284\u0288\u0289\u028A\u028B\u028C\u028D\u028E\u028F\u0290\u0291\u0292\u0294\u0295\u0298\u0299\u029B\u029C\u029D\u029F\u02A1\u02A2\u02A3\u02A4\u02A7\u02B0\u02B2\u02B7\u02B8\u02C8\u02CC\u02D0\u02D1\u02E0\u02E1\u02E4\u0300\u0301\u0302\u0303\u0304\u0305\u0306\u0307\u0308\u0309\u030A\u030B\u030C\u030D\u030E\u030F\u03B2\u03B8\u03C7\u1D47\u1D48\u1D4B\u1D4D\u1D4F\u1D57\u1DA0\u1DA6\u1DA7\u1DA8\u1DA9\u1DAA\u1DAB\u1DAC\u1DAD\u1DAE\u1DAF\u1DB0\u1DB1\u1DB2\u1DB3\u1DB4\u1DB5\u1DB6\u1DB7\u1DB8\u1DB9\u1DBA\u1DBB\u1DBC\u1DBD\u1DBE\u1DBF\u207F\u2C71"

/-- Membership in the character class of `VALID_IPA_CHARS_REGEX`. -/
def validIPAChar (c : Char) : Bool :=
  ('a' ≤ c && c ≤ 'z') || ('A' ≤ c && c ≤ 'Z') || IPA_EXTRA_CHARS.data.contains c

/-- Model of testing a string against `^[VALID_IPA_CHARS]+$`
(src/Dockerfile:1224-1225): non-empty and every character in the class. -/
def ipaTestFull (s : String) : Bool :=
  s ≠ "" && s.data.all validIPAChar

/-- `validateEntry` (src/Dockerfile:1149-1231); the `entryIndex` argument is
only used for logging in the source and is dropped here. -/
def validateEntry (entry : LexiconEntry) : List String :=
  let hasValidGrapheme :=
    entry.graphemes.any (fun g => jsTrim g ≠ "" && g ≠ NEW_ENTRY_PLACEHOLDER)
  let errors1 : List String :=
    if hasValidGrapheme then [] else ["Must have at least one grapheme"]
  let aliasValue := jsTrim (entry.«alias».getD "")
  let phonemeValue := jsTrim (entry.phoneme.getD "")
  let hasAlias := aliasValue ≠ ""
  let hasPhoneme := phonemeValue ≠ ""
  let errors2 : List String :=
    if hasAlias || hasPhoneme then [] else ["Must have either an alias or phoneme"]
  let errors3 : List String :=
    if hasPhoneme && jsTruthy entry.phoneme && !(ipaTestFull (entry.phoneme.getD "")) then
      ["Phoneme contains invalid characters (imported entries may need manual correction)"]
    else []
  errors1 ++ errors2 ++ errors3

/-- The validity predicate exactly as the specification phrases it
(spec.md §8, "Validation totality"): at least one non-empty non-sentinel
grapheme, alias or phoneme present after trimming, and the phoneme (when
present) drawn from the IPA character class. -/
def specValidEntry (entry : LexiconEntry) : Prop :=
  (∃ g ∈ entry.graphemes, jsTrim g ≠ "" ∧ g ≠ NEW_ENTRY_PLACEHOLDER) ∧
  (jsTrim (entry.«alias».getD "") ≠ "" ∨ jsTrim (entry.phoneme.getD "") ≠ "") ∧
  (jsTrim (entry.phoneme.getD "") ≠ "" → (entry.phoneme.getD "").data.all validIPAChar)

/-! ### Ordering engine -/

/-- Sort key: `entry.graphemes[0]?.toLowerCase() || ''`. -/
def entryKey (e : LexiconEntry) : String :=
  match e.graphemes.head? with
  | some g => jsToLower g
  | none => ""

/-- The scan loop of `findInsertionIndex` (src/Dockerfile:1139-1145):
first index whose key compares strictly greater than the new key
(`newGrapheme.localeCompare(currentGrapheme) < 0`), else the length. -/
def findInsertionAux (newG : String) : List LexiconEntry → Nat
  | [] => 0
  | e :: rest => if strLt newG (entryKey e) then 0 else findInsertionAux newG rest + 1

/-- `findInsertionIndex` (src/Dockerfile:1136-1146). -/
def findInsertionIndex (entries : List LexiconEntry) (newEntry : LexiconEntry) : Nat :=
  findInsertionAux (entryKey newEntry) entries

/-- The specification's description of `findInsertionIndex`
(spec.md §4.3): first index whose lowercased first grapheme is
lexicographically greater *than or equal to* the new key, else the length. -/
def specInsertionAux (newG : String) : List LexiconEntry → Nat
  | [] => 0
  | e :: rest => if strLe newG (entryKey e) then 0 else specInsertionAux newG rest + 1

/-- The insertion index as the specification describes it. -/
def specInsertionIndex (entries : List LexiconEntry) (newEntry : LexiconEntry) : Nat :=
  specInsertionAux (entryKey newEntry) entries

/-- Model of `list.splice(i, 0, e)`. -/
def spliceInsert {α : Type} (e : α) : Nat → List α → List α
  | 0, l => e :: l
  | _ + 1, [] => [e]
  | n + 1, x :: xs => x :: spliceInsert e n xs

/-- The sort invariant: non-decreasing case-insensitive first-grapheme
order. -/
def entriesSorted (l : List LexiconEntry) : Prop :=
  List.Pairwise (fun a b => strLe (entryKey a) (entryKey b) = true) l

instance entriesSortedDecidable (l : List LexiconEntry) : Decidable (entriesSorted l) :=
  inferInstanceAs (Decidable (List.Pairwise _ l))

/-! ### CSV / TSV codecs -/

/-- Replace every `"` by `""` (the `value.replace(/"/g, '""')` step). -/
def doubleQuotesChars : List Char → List Char
  | [] => []
  | c :: cs =>
    if c = '"' then '"' :: '"' :: doubleQuotesChars cs
    else c :: doubleQuotesChars cs

/-- `escapeCSV` (src/Dockerfile:2029-2037). -/
def escapeCSV (value : String) : String :=
  if value = "" then ""
  else if value.data.contains ',' || value.data.contains '"' ||
          value.data.contains '\n' || value.data.contains '\r' then
    "\"" ++ (⟨doubleQuotesChars value.data⟩ : String) ++ "\""
  else value

/-- The fixed CSV header row (src/Dockerfile:2025). -/
def CSV_HEADER : String := "grapheme,alias,alias_say_as,phoneme,phoneme_say_as"

/-- The fixed TSV header row (src/Dockerfile:2001). -/
def TSV_HEADER : String := "grapheme\talias\talias_say_as\tphoneme\tphoneme_say_as"

/-- One CSV row for one grapheme of an entry (src/Dockerfile:2041-2049). -/
def entryCSVRow (e : LexiconEntry) (g : String) : String :=
  jsJoinS ',' [escapeCSV g, escapeCSV (e.«alias».getD ""),
    escapeCSV (e.aliasSayAsType.getD ""), escapeCSV (e.phoneme.getD ""),
    escapeCSV (e.phonemeSayAsType.getD "")]

/-- `buildCSV` (src/Dockerfile:2024-2057), with the entry list passed
explicitly rather than read from component state. -/
def buildCSV (entries : List LexiconEntry) : String :=
  jsJoinS '\n' (CSV_HEADER :: listFlat (entries.map (fun e => e.graphemes.map (entryCSVRow e))))

/-- One TSV row for one grapheme of an entry (src/Dockerfile:2006-2014);
TSV fields are not escaped. -/
def entryTSVRow (e : LexiconEntry) (g : String) : String :=
  jsJoinS '\t' [g, e.«alias».getD "", e.aliasSayAsType.getD "",
    e.phoneme.getD "", e.phonemeSayAsType.getD ""]

/-- `buildTSV` (src/Dockerfile:2000-2022). -/
def buildTSV (entries : List LexiconEntry) : String :=
  jsJoinS '\n' (TSV_HEADER :: listFlat (entries.map (fun e => e.graphemes.map (entryTSVRow e))))

/-- Remove a leading UTF-8 BOM (src/Dockerfile:2061,2118). -/
def stripBOM (s : String) : String :=
  match s.data with
  | '﻿' :: rest => ⟨rest⟩
  | _ => s

/-- The data-line filter (src/Dockerfile:2063,2120): keep a line iff its
trimmed form is non-empty and does not start with `#`. -/
def keepDataLine (line : String) : Bool :=
  !(headIsHash (jsTrim line)) && jsTrim line ≠ ""

/-- The quote-aware CSV field automaton `parseCSVLine`
(src/Dockerfile:2127-2161), on character lists.  `cur` holds the current
field reversed. -/
def parseCSVLineAux : Bool → List Char → List Char → List (List Char)
  | _, cur, [] => [cur.reverse]
  | inQ, cur, '"' :: '"' :: rest2 =>
    if inQ then parseCSVLineAux inQ ('"' :: cur) rest2
    else parseCSVLineAux true cur ('"' :: rest2)
  | inQ, cur, '"' :: rest =>
    parseCSVLineAux (!inQ) cur rest
  | inQ, cur, c :: rest =>
    if c = ',' && !inQ then cur.reverse :: parseCSVLineAux inQ [] rest
    else parseCSVLineAux inQ (c :: cur) rest

/-- `parseCSVLine` (src/Dockerfile:2127-2161). -/
def parseCSVLine (line : String) : List String :=
  (parseCSVLineAux false [] line.data).map (fun l => ⟨l⟩)

/-- The required header names (src/Dockerfile:2073,2167). -/
def expectedHeaders : List String :=
  ["grapheme", "alias", "alias_say_as", "phoneme", "phoneme_say_as"]

/-- `headers.indexOf(h)` for a header that is present. -/
def jsIndexOf (xs : List String) (x : String) : Nat :=
  xs.findIdx (fun y => y == x)

/-- `s || undefined`: an empty string becomes an absent field
(src/Dockerfile:2103-2106,2197-2200). -/
def optField (s : String) : Option String :=
  if s = "" then none else some s

/-- The `entryMap` update: ensure the key is present, then push the
grapheme onto that key's entry (src/Dockerfile:2100-2110,2194-2204).
The JS `Map` is an insertion-ordered association list. -/
def mapPushGrapheme : List (String × LexiconEntry) → String → String → LexiconEntry →
    List (String × LexiconEntry)
  | [], key, g, fresh => [(key, { fresh with graphemes := [g] })]
  | (k, e) :: rest, key, g, fresh =>
    if k = key then (k, { e with graphemes := e.graphemes ++ [g] }) :: rest
    else (k, e) :: mapPushGrapheme rest key g fresh

/-- Processing of one data row (src/Dockerfile:2087-2111,2181-2205):
trim every used field, skip the row when the grapheme is empty, otherwise
group under the `alias|alias_say_as|phoneme|phoneme_say_as` key. -/
def rowStep (gi ai asi phi psi : Nat) (acc : List (String × LexiconEntry))
    (cols : List String) : List (String × LexiconEntry) :=
  let g := jsTrim (cols.getD gi "")
  let a := jsTrim (cols.getD ai "")
  let asv := jsTrim (cols.getD asi "")
  let p := jsTrim (cols.getD phi "")
  let psv := jsTrim (cols.getD psi "")
  if g = "" then acc
  else
    let key := a ++ "|" ++ asv ++ "|" ++ p ++ "|" ++ psv
    mapPushGrapheme acc key g
      { graphemes := [], «alias» := optField a, aliasSayAsType := optField asv,
        phoneme := optField p, phonemeSayAsType := optField psv, isNew := false }

/-- The shared body of `parseCSV`/`parseTSV` (src/Dockerfile:2059-2114 and
2116-2208; the two functions are line-for-line identical up to the line
splitter and the error messages). -/
def parseRows (splitLine : String → List String) (tooFewMsg badHeaderMsg : String)
    (content : String) : Except String (List LexiconEntry) :=
  let clean := stripBOM content
  let lines := jsSplit '\n' clean
  let dataLines := lines.filter keepDataLine
  match dataLines with
  | headerLine :: row1 :: rows =>
    let headers := splitLine headerLine
    if expectedHeaders.all (fun h => headers.contains h) then
      let gi := jsIndexOf headers "grapheme"
      let ai := jsIndexOf headers "alias"
      let asi := jsIndexOf headers "alias_say_as"
      let phi := jsIndexOf headers "phoneme"
      let psi := jsIndexOf headers "phoneme_say_as"
      .ok (((row1 :: rows).foldl
        (fun acc line => rowStep gi ai asi phi psi acc (splitLine line)) []).map Prod.snd)
    else .error badHeaderMsg
  | _ => .error tooFewMsg

/-- `parseCSV` (src/Dockerfile:2116-2208). -/
def parseCSV (content : String) : Except String (List LexiconEntry) :=
  parseRows parseCSVLine
    "CSV file must have at least a header row and one data row"
    "CSV file must have the correct headers: grapheme, alias, alias_say_as, phoneme, phoneme_say_as"
    content

/-- `parseTSV` (src/Dockerfile:2059-2114). -/
def parseTSV (content : String) : Except String (List LexiconEntry) :=
  parseRows (fun line => jsSplit '\t' line)
    "TSV file must have at least a header row and one data row"
    "TSV file must have the correct headers: grapheme, alias, alias_say_as, phoneme, phoneme_say_as"
    content

/-! ### XML codec, modelled at the element-tree level

`buildXML` (src/Dockerfile:1939-1998) constructs a DOM tree and hands it to
the external `XMLSerializer`; `parseXML` (src/Dockerfile:2211-2236) reads a
DOM `Document` produced by the external `DOMParser`.  The in-repository
logic is therefore tree construction and tree traversal; it is embedded
here over an explicit two-level element tree matching the shape these
functions build and consume (a `lexicon` root whose children are `lexeme`
elements whose children are text leaves). -/

/-- A leaf element (`grapheme`, `alias` or `phoneme`). -/
structure XmlLeaf where
  tag : String
  attrs : List (String × String)
  text : String
  deriving DecidableEq, Repr

/-- A `lexeme` element. -/
structure XmlLexeme where
  tag : String
  children : List XmlLeaf
  deriving DecidableEq, Repr

/-- The `lexicon` document root. -/
structure XmlDoc where
  tag : String
  attrs : List (String × String)
  children : List XmlLexeme
  deriving DecidableEq, Repr

/-- `getAttribute` on a leaf: `none` models the DOM's `null`. -/
def leafAttr (l : XmlLeaf) (name : String) : Option String :=
  (l.attrs.find? (fun p => p.1 == name)).map Prod.snd

/-- `lexeme.getElementsByTagName(t)` for this tree shape. -/
def findLeaves (lexeme : XmlLexeme) (t : String) : List XmlLeaf :=
  lexeme.children.filter (fun l => l.tag == t)

/-- The per-`lexeme` body of `parseXML` (src/Dockerfile:2215-2232). -/
def parseXMLEntry (lexeme : XmlLexeme) : LexiconEntry :=
  let graphemeElements := findLeaves lexeme "grapheme"
  let aliasElement := (findLeaves lexeme "alias").head?
  let phonemeElement := (findLeaves lexeme "phoneme").head?
  { graphemes := graphemeElements.map XmlLeaf.text
  , «alias» := some ((aliasElement.map XmlLeaf.text).getD "")
  , aliasSayAsType := some ((aliasElement.bind (fun el => leafAttr el "interpret-as")).getD "")
  , phoneme := some ((phonemeElement.map XmlLeaf.text).getD "")
  , phonemeSayAsType := some ((phonemeElement.bind (fun el => leafAttr el "interpret-as")).getD "")
  , isNew := false }

/-- `parseXML` (src/Dockerfile:2211-2236): every `lexeme` element of the
document, in document order. -/
def parseXML (doc : XmlDoc) : List LexiconEntry :=
  (doc.children.filter (fun lx => lx.tag == "lexeme")).map parseXMLEntry

/-- The non-empty `value`s of `SAY_AS_OPTIONS` (src/Dockerfile:102-120),
i.e. `validSayAsTypes` as computed at src/Dockerfile:1969,1982. -/
def validSayAsTypes : List String :=
  ["characters", "spell-out", "cardinal", "ordinal", "digits", "fraction",
   "unit", "date", "time", "telephone", "address", "name", "net", "currency",
   "measure", "verbatim"]

/-- The `interpret-as` attribute list for an optional element
(src/Dockerfile:1966-1973, 1979-1986): emitted only when the say-as value
is truthy, non-blank and a member of the fixed vocabulary. -/
def sayAsAttrs (sayAs : Option String) : List (String × String) :=
  if jsTruthy sayAs && jsTrim (sayAs.getD "") ≠ "" && validSayAsTypes.contains (sayAs.getD "") then
    [("interpret-as", sayAs.getD "")]
  else []

/-- One `lexeme` element of `buildXML` (src/Dockerfile:1956-1989). -/
def buildLexeme (e : LexiconEntry) : XmlLexeme :=
  { tag := "lexeme"
  , children :=
      e.graphemes.map (fun g => ⟨"grapheme", [], g⟩) ++
      (if jsTruthy e.«alias» then
        [⟨"alias", sayAsAttrs e.aliasSayAsType, e.«alias».getD ""⟩]
      else []) ++
      (if jsTruthy e.phoneme then
        [⟨"phoneme", sayAsAttrs e.phonemeSayAsType, e.phoneme.getD ""⟩]
      else []) }

/-- The document tree produced by `buildXML` (src/Dockerfile:1939-1992),
up to the externally serialised attributes of the root. -/
def buildXMLDoc (lang : String) (entries : List LexiconEntry) : XmlDoc :=
  { tag := "lexicon"
  , attrs := [("version", "1.0"), ("xml:lang", lang), ("alphabet", "ipa")]
  , children := entries.map buildLexeme }

/-! ### Merge engine -/

/-- The `type` tag of a `MergeConflict` (src/Dockerfile:88). -/
inductive ConflictType where
  | additional_alias
  | conflict
  deriving DecidableEq, Repr

/-- A conflict resolution choice (src/Dockerfile:94). -/
inductive Resolution where
  | master
  | merge
  | both
  deriving DecidableEq, Repr

/-- `interface MergeConflict` (src/Dockerfile:87-95); `resolution = none`
models `null`. -/
structure MergeConflict where
  type : ConflictType
  masterEntry : LexiconEntry
  mergeEntry : LexiconEntry
  masterIndex : Nat
  mergeIndex : Nat
  commonGraphemes : List String
  resolution : Option Resolution := none
  deriving DecidableEq, Repr

/-- Insert into a `≤`-sorted string list (after equal elements). -/
def insertSortedStr (s : String) : List String → List String
  | [] => [s]
  | x :: xs => if strLe s x then s :: x :: xs else x :: insertSortedStr s xs

/-- Canonical sort of a string list; stands in for `array.sort()` followed
by `JSON.stringify` comparison (two lists stringify equal iff the sorted
lists are equal). -/
def sortStrings (l : List String) : List String :=
  l.foldr insertSortedStr []

/-- `graphemes.map(g => g.toLowerCase())`. -/
def lowerList (gs : List String) : List String :=
  gs.map jsToLower

/-- `arePhoneticallyIdentical` (src/Dockerfile:2557-2562). -/
def arePhoneticallyIdentical (e1 e2 : LexiconEntry) : Bool :=
  sortStrings (lowerList e1.graphemes) == sortStrings (lowerList e2.graphemes) &&
  e1.phoneme == e2.phoneme

/-- `areIdentical` (src/Dockerfile:2565-2571): case-insensitive on
graphemes and alias, exact on phoneme. -/
def areIdentical (e1 e2 : LexiconEntry) : Bool :=
  sortStrings (lowerList e1.graphemes) == sortStrings (lowerList e2.graphemes) &&
  e1.«alias».map jsToLower == e2.«alias».map jsToLower &&
  e1.phoneme == e2.phoneme

/-- `masterEntry.graphemes.some(mg => mergeGraphemes.includes(mg.toLowerCase()))`. -/
def sharesGrapheme (mergeGraphemes : List String) (masterEntry : LexiconEntry) : Bool :=
  masterEntry.graphemes.any (fun mg => mergeGraphemes.contains (jsToLower mg))

/-- The classification of one (master, incoming) match
(src/Dockerfile:2666-2708): identical pairs produce nothing, phonetically
identical pairs an `additional_alias` conflict, and anything else an
`additional_alias` or `conflict` record depending on whether only the
aliases differ. -/
def conflictFor (mergeGraphemes : List String) (masterIndex mergeIndex : Nat)
    (masterEntry mergeEntry : LexiconEntry) : List MergeConflict :=
  if areIdentical masterEntry mergeEntry then []
  else if arePhoneticallyIdentical masterEntry mergeEntry then
    [{ type := .additional_alias, masterEntry, mergeEntry, masterIndex, mergeIndex
     , commonGraphemes := masterEntry.graphemes.filter (fun mg => mergeGraphemes.contains (jsToLower mg))
     , resolution := none }]
  else
    [{ type := if masterEntry.phoneme == mergeEntry.phoneme &&
          masterEntry.«alias».map jsToLower != mergeEntry.«alias».map jsToLower
        then .additional_alias else .conflict
     , masterEntry, mergeEntry, masterIndex, mergeIndex
     , commonGraphemes := masterEntry.graphemes.filter (fun mg => mergeGraphemes.contains (jsToLower mg))
     , resolution := none }]

/-- `analyzeConflicts` (src/Dockerfile:2650-2710), as a function of the
master and incoming entry lists. -/
def analyzeConflicts (masterEntries mergeEntries : List LexiconEntry) : List MergeConflict :=
  listFlat ((enumFromIdx 0 mergeEntries).map (fun mp =>
    let mergeGraphemes := lowerList mp.2.graphemes
    listFlat (((enumFromIdx 0 masterEntries).filter (fun q => sharesGrapheme mergeGraphemes q.2)).map
      (fun q => conflictFor mergeGraphemes q.1 mp.1 q.2 mp.2))))

/-- The merge summary record (src/Dockerfile:2821-2827, 2879-2885).
`identicalSkipped` is an `Int` because the conflict path back-computes it
by subtraction. -/
structure MergeSummary where
  newEntries : Nat
  conflictsResolved : Nat
  identicalSkipped : Int
  totalProcessed : Nat
  errorsFound : Nat
  deriving DecidableEq, Repr

/-- Insert into an `entryKey`-sorted entry list, after entries with an
equal key (a stable model of `entries.sort` by `localeCompare`,
src/Dockerfile:2814-2818, 2872-2876). -/
def insertEntrySorted (e : LexiconEntry) : List LexiconEntry → List LexiconEntry
  | [] => [e]
  | x :: xs => if strLt (entryKey e) (entryKey x) then e :: x :: xs else x :: insertEntrySorted e xs

/-- Stable sort of the entry list by case-insensitive first grapheme. -/
def sortEntries (l : List LexiconEntry) : List LexiconEntry :=
  l.foldl (fun acc e => insertEntrySorted e acc) []

/-- One iteration of the `performMerge` loop (src/Dockerfile:2848-2869).
The state is (current master list, newEntriesAdded, identicalSkipped). -/
def performMergeStep (st : List LexiconEntry × Nat × Nat) (mergeEntry : LexiconEntry) :
    List LexiconEntry × Nat × Nat :=
  let masterEntries := st.1
  let mergeGraphemes := lowerList mergeEntry.graphemes
  if masterEntries.any (fun m => sharesGrapheme mergeGraphemes m) then
    match masterEntries.find? (fun m => sharesGrapheme mergeGraphemes m) with
    | some matchingEntry =>
      if areIdentical matchingEntry mergeEntry then (masterEntries, st.2.1, st.2.2 + 1)
      else (masterEntries, st.2.1, st.2.2)
    | none => (masterEntries, st.2.1, st.2.2)
  else (masterEntries ++ [{ mergeEntry with isNew := true }], st.2.1 + 1, st.2.2)

/-- `performMerge` (src/Dockerfile:2842-2899), the zero-conflict fast
path; `errorsFound` is the length of the detailed-error list in state. -/
def performMerge (masterEntries0 mergeEntries : List LexiconEntry) (errorsFound : Nat) :
    List LexiconEntry × MergeSummary :=
  let r := mergeEntries.foldl performMergeStep (masterEntries0, 0, 0)
  (sortEntries r.1,
   { newEntries := r.2.1, conflictsResolved := 0, identicalSkipped := (r.2.2 : Int)
   , totalProcessed := mergeEntries.length, errorsFound })

/-- One iteration of the resolution loop of `finalizeMerge`
(src/Dockerfile:2758-2784).  `List.set` models the in-bounds array write
`resolvedEntries[masterIndex] = ...`. -/
def resolveStep (acc : List LexiconEntry × Nat) (c : MergeConflict) :
    List LexiconEntry × Nat :=
  match c.resolution with
  | some .merge => (acc.1.set c.masterIndex { c.mergeEntry with isNew := true }, acc.2 + 1)
  | some .both =>
    let masterGraphemesLower := lowerList c.masterEntry.graphemes
    let uniqueMergeGraphemes :=
      c.mergeEntry.graphemes.filter (fun g => !(masterGraphemesLower.contains (jsToLower g)))
    let combinedGraphemes := c.masterEntry.graphemes ++ uniqueMergeGraphemes
    (acc.1.set c.masterIndex
      { graphemes := combinedGraphemes
      , «alias» := jsOr c.mergeEntry.«alias» c.masterEntry.«alias»
      , aliasSayAsType := none
      , phoneme := jsOr c.mergeEntry.phoneme c.masterEntry.phoneme
      , phonemeSayAsType := none
      , isNew := true }, acc.2 + 1)
  | some .master => (acc.1, acc.2 + 1)
  | none => acc

/-- One iteration of the new-entry loop of `finalizeMerge`
(src/Dockerfile:2790-2808): append an incoming entry when it shares no
grapheme with any conflict's incoming entry nor with the original master
list. -/
def addNewStep (entries0 : List LexiconEntry) (mergeConflicts : List MergeConflict)
    (acc : List LexiconEntry × Nat) (mergeEntry : LexiconEntry) :
    List LexiconEntry × Nat :=
  let mergeGraphemes := lowerList mergeEntry.graphemes
  let hasConflict := mergeConflicts.any (fun c =>
    c.mergeEntry.graphemes.any (fun mg => mergeGraphemes.contains (jsToLower mg)))
  if hasConflict then acc
  else if entries0.any (fun m => sharesGrapheme mergeGraphemes m) then acc
  else (acc.1 ++ [{ mergeEntry with isNew := true }], acc.2 + 1)

/-- The result of `finalizeMerge`: the new entry list and the summary. -/
structure FinalizeResult where
  entries : List LexiconEntry
  summary : MergeSummary
  deriving DecidableEq, Repr

/-- `finalizeMerge` (src/Dockerfile:2754-2840), as a function of the
current entries, conflict list and parsed merge-file content. -/
def finalizeMerge (entries0 : List LexiconEntry) (mergeConflicts : List MergeConflict)
    (mergeFileContent : List LexiconEntry) : FinalizeResult :=
  let r1 := mergeConflicts.foldl resolveStep (entries0, 0)
  let r2 := mergeFileContent.foldl (addNewStep entries0 mergeConflicts) (r1.1, 0)
  let identicalSkipped : Int :=
    (mergeFileContent.length : Int) - (mergeConflicts.length : Int) - (r2.2 : Int)
  { entries := sortEntries r2.1
  , summary := { newEntries := r2.2, conflictsResolved := r1.2, identicalSkipped
               , totalProcessed := mergeFileContent.length, errorsFound := 0 } }

/-- The state read and written by the Complete Merge interaction. -/
structure MergeState where
  entries : List LexiconEntry
  mergeFileContent : List LexiconEntry
  mergeConflicts : List MergeConflict
  deriving DecidableEq, Repr

/-- The Complete Merge button's `disabled` predicate
(src/Dockerfile:4749): some conflict has a falsy (unset) resolution. -/
def completeMergeDisabled (conflicts : List MergeConflict) : Bool :=
  conflicts.any (fun c => !c.resolution.isSome)

/-- Activating Complete Merge (src/Dockerfile:4747-4754): a disabled
button does nothing; otherwise `finalizeMerge` runs and the merge state is
cleared (src/Dockerfile:2829-2833). -/
def completeMergeClick (st : MergeState) : MergeState :=
  if completeMergeDisabled st.mergeConflicts then st
  else
    { entries := (finalizeMerge st.entries st.mergeConflicts st.mergeFileContent).entries
    , mergeFileContent := []
    , mergeConflicts := [] }

/-- A `lexeme`/`entry` object of the uploaded merge file after text
extraction (src/Dockerfile:2417-2433, 2446-2462): graphemes plus optional
alias and phoneme strings. -/
structure RawLexeme where
  graphemes : List String
  «alias» : Option String := none
  phoneme : Option String := none
  deriving DecidableEq, Repr

/-- The alias string `processMergeFile` extracts (src/Dockerfile:2446-2453):
the raw alias when truthy, else `''`. -/
def mergeAliasOf (raw : RawLexeme) : String :=
  if jsTruthy raw.«alias» then raw.«alias».getD "" else ""

/-- The phoneme string `processMergeFile` extracts (src/Dockerfile:2455-2462). -/
def mergePhonemeOf (raw : RawLexeme) : String :=
  if jsTruthy raw.phoneme then raw.phoneme.getD "" else ""

/-- The per-entry validation and construction step of `processMergeFile`
(src/Dockerfile:2415-2497): a successfully parsed entry is pushed with
exactly the `graphemes`, `alias` and `phoneme` fields. -/
def parseMergeEntry (raw : RawLexeme) : Except String LexiconEntry :=
  if raw.graphemes.length = 0 then .error "has no graphemes"
  else if (raw.graphemes.filter (fun g => g = "" || jsTrim g = "")).length ≠ 0 then
    .error "has empty graphemes"
  else if mergeAliasOf raw = "" && mergePhonemeOf raw = "" then
    .error "must have either an alias or phoneme"
  else if (listFlat (raw.graphemes.map String.data)).any (fun c => c = '"' || c = '&') then
    .error "contains problematic characters"
  else if raw.graphemes.any (fun g => g.data.any (fun c => c.toNat ≤ 31 || c.toNat = 127)) then
    .error "contains control characters"
  else if (raw.graphemes.filter (fun g => g.length > 100)).length ≠ 0 then
    .error "has unusually long graphemes"
  else .ok { graphemes := raw.graphemes, «alias» := some (mergeAliasOf raw)
           , phoneme := some (mergePhonemeOf raw) }

/-! ### Field normalisation for the round-trip statements -/

/-- The value of an optional field with absence read as the empty string
(the comparison the specification's "same alias / same phoneme" denotes,
since the codecs use `''` and `undefined` interchangeably for absence). -/
def normField (f : Option String) : String := f.getD ""

/-- The five spec-visible components of an entry: graphemes, alias,
alias-say-as, phoneme, phoneme-say-as, with absent fields read as `""`. -/
def entryView (e : LexiconEntry) : List String × String × String × String × String :=
  (e.graphemes, normField e.«alias», normField e.aliasSayAsType,
   normField e.phoneme, normField e.phonemeSayAsType)

/-- The CSV/TSV grouping key of an entry. -/
def keyOf (e : LexiconEntry) : String :=
  normField e.«alias» ++ "|" ++ normField e.aliasSayAsType ++ "|" ++
  normField e.phoneme ++ "|" ++ normField e.phonemeSayAsType

/-- The entry as CSV/TSV decoding reconstructs it. -/
def csvNormEntry (e : LexiconEntry) : LexiconEntry :=
  { graphemes := e.graphemes
  , «alias» := optField (normField e.«alias»)
  , aliasSayAsType := optField (normField e.aliasSayAsType)
  , phoneme := optField (normField e.phoneme)
  , phonemeSayAsType := optField (normField e.phonemeSayAsType)
  , isNew := false }

/-- The entry as XML decoding reconstructs it. -/
def xmlNormEntry (e : LexiconEntry) : LexiconEntry :=
  { graphemes := e.graphemes
  , «alias» := some (normField e.«alias»)
  , aliasSayAsType := some (if jsTruthy e.«alias» then normField (e.aliasSayAsType.bind (fun v => (sayAsAttrs (some v)).head?.map Prod.snd)) else "")
  , phoneme := some (normField e.phoneme)
  , phonemeSayAsType := some (if jsTruthy e.phoneme then normField (e.phonemeSayAsType.bind (fun v => (sayAsAttrs (some v)).head?.map Prod.snd)) else "")
  , isNew := false }

/-- `s` contains none of the characters in `bad`. -/
def fieldHasNone (s : String) (bad : List Char) : Bool :=
  !(s.data.any (fun c => bad.contains c))

/-- A CSV field that survives the encode/decode pipeline: trim-normalised
(the decoder trims every field) and newline-free (the file is split on
`\n` before the quote-aware field parser runs, so a quoted newline is torn
apart).  Commas, quotes and carriage returns need no exclusion: `escapeCSV`
quotes such fields and `parseCSVLine` undoes the quoting. -/
def csvSafeStr (s : String) : Bool :=
  (jsTrim s == s) && fieldHasNone s ['\n']

/-- A TSV field that survives the encode/decode pipeline: trim-normalised
and free of the two structural characters (tab and newline); TSV has no
escaping mechanism. -/
def tsvSafeStr (s : String) : Bool :=
  (jsTrim s == s) && fieldHasNone s ['\t', '\n']

/-- Entry hypotheses of the CSV round trip: at least one grapheme, every
grapheme non-empty, not `#`-initial and CSV-safe, every optional field
CSV-safe. -/
def csvSafeEntry (e : LexiconEntry) : Bool :=
  !e.graphemes.isEmpty &&
  e.graphemes.all (fun g => g ≠ "" && !(headIsHash g) && csvSafeStr g) &&
  csvSafeStr (normField e.«alias») && csvSafeStr (normField e.aliasSayAsType) &&
  csvSafeStr (normField e.phoneme) && csvSafeStr (normField e.phonemeSayAsType)

/-- Entry hypotheses of the TSV round trip. -/
def tsvSafeEntry (e : LexiconEntry) : Bool :=
  !e.graphemes.isEmpty &&
  e.graphemes.all (fun g => g ≠ "" && !(headIsHash g) && tsvSafeStr g) &&
  tsvSafeStr (normField e.«alias») && tsvSafeStr (normField e.aliasSayAsType) &&
  tsvSafeStr (normField e.phoneme) && tsvSafeStr (normField e.phonemeSayAsType)

/-- Entry hypotheses of the XML round trip: a say-as tag is only carried
on a non-empty alias/phoneme and is drawn from the fixed vocabulary. -/
def xmlSafeEntry (e : LexiconEntry) : Bool :=
  (normField e.aliasSayAsType == "" ||
    (jsTruthy e.«alias» && validSayAsTypes.contains (normField e.aliasSayAsType))) &&
  (normField e.phonemeSayAsType == "" ||
    (jsTruthy e.phoneme && validSayAsTypes.contains (normField e.phonemeSayAsType)))

/-- Pairwise-distinct grouping keys. -/
def keysDistinct (entries : List LexiconEntry) : Prop :=
  List.Pairwise (fun a b => keyOf a ≠ keyOf b) entries

instance keysDistinctDecidable (entries : List LexiconEntry) : Decidable (keysDistinct entries) :=
  inferInstanceAs (Decidable (List.Pairwise _ entries))

/-- An optional field as decoding produces it: absent, or a non-empty
trim-normalised string. -/
def normalizedOptField (f : Option String) : Prop :=
  ∀ s, f = some s → s ≠ "" ∧ jsTrim s = s

/-- The shape of every entry a CSV/TSV decode can produce: non-empty
trim-normalised graphemes and normalised optional fields. -/
def decodedEntryOk (e : LexiconEntry) : Prop :=
  (∀ g ∈ e.graphemes, g ≠ "" ∧ jsTrim g = g) ∧
  normalizedOptField e.«alias» ∧ normalizedOptField e.aliasSayAsType ∧
  normalizedOptField e.phoneme ∧ normalizedOptField e.phonemeSayAsType

/-- Two entries share no grapheme case-insensitively (the well-formedness
hypothesis under which merge idempotence holds). -/
def graphemeDisjoint (a b : LexiconEntry) : Prop :=
  ∀ g ∈ a.graphemes, ∀ g2 ∈ b.graphemes, jsToLower g ≠ jsToLower g2

instance graphemeDisjointDecidable (a b : LexiconEntry) : Decidable (graphemeDisjoint a b) :=
  inferInstanceAs (Decidable (∀ g ∈ a.graphemes, ∀ g2 ∈ b.graphemes, jsToLower g ≠ jsToLower g2))

/-! ### Order lemmas for the insertion comparison -/

theorem strLtChars_asymm : ∀ {a b : List Char},
    strLtChars a b = true → strLtChars b a = false := by
  intro a
  induction a with
  | nil =>
    intro b h
    cases b with
    | nil => simp [strLtChars] at h
    | cons y ys => simp [strLtChars]
  | cons x xs ih =>
    intro b h
    cases b with
    | nil => simp [strLtChars] at h
    | cons y ys =>
      simp only [strLtChars] at h ⊢
      rcases Nat.lt_trichotomy x.toNat y.toNat with h1 | h1 | h1
      · rw [if_neg (by omega), if_pos h1]
      · rw [if_neg (by omega), if_neg (by omega)] at h
        rw [if_neg (by omega), if_neg (by omega)]
        exact ih h
      · rw [if_neg (by omega), if_pos h1] at h
        exact absurd h (by simp)

theorem strLtChars_trans : ∀ {a b c : List Char},
    strLtChars a b = true → strLtChars b c = true → strLtChars a c = true := by
  intro a
  induction a with
  | nil =>
    intro b c h1 h2
    cases c with
    | nil =>
      cases b with
      | nil => simp [strLtChars] at h2
      | cons y ys => simp [strLtChars] at h2
    | cons z zs => simp [strLtChars]
  | cons x xs ih =>
    intro b c h1 h2
    cases b with
    | nil => simp [strLtChars] at h1
    | cons y ys =>
      cases c with
      | nil => simp [strLtChars] at h2
      | cons z zs =>
        simp only [strLtChars] at h1 h2 ⊢
        rcases Nat.lt_trichotomy x.toNat y.toNat with hxy | hxy | hxy <;>
          rcases Nat.lt_trichotomy y.toNat z.toNat with hyz | hyz | hyz
        all_goals first
          | (rw [if_pos (by omega)])
          | (rw [if_neg (by omega), if_pos (by omega)] at h1
             exact absurd h1 (by simp))
          | (rw [if_neg (by omega), if_pos (by omega)] at h2
             exact absurd h2 (by simp))
          | (rw [if_neg (by omega), if_neg (by omega)] at h1
             rw [if_neg (by omega), if_neg (by omega)] at h2
             rw [if_neg (by omega), if_neg (by omega)]
             exact ih h1 h2)

theorem strLt_asymm {s t : String} (h : strLt s t = true) : strLt t s = false :=
  strLtChars_asymm h

theorem strLt_trans {s t u : String} (h1 : strLt s t = true) (h2 : strLt t u = true) :
    strLt s u = true :=
  strLtChars_trans h1 h2

/-! ### C5: the insertion index -/

/-- C5: the claim is false as stated — `findInsertionIndex` does not stop
at an entry whose key is *equal* to the new key.  With a single entry
keyed `"a"` and a new entry also keyed `"a"`, the specification's
first-index-with-≥-key is `0`, but the code returns `1`. -/
theorem C5_counterexample :
    findInsertionIndex [({ graphemes := ["a"] } : LexiconEntry)]
      ({ graphemes := ["a"] } : LexiconEntry) = 1 ∧
    specInsertionIndex [({ graphemes := ["a"] } : LexiconEntry)]
      ({ graphemes := ["a"] } : LexiconEntry) = 0 := by
  decide

/-- C5 (amended): `findInsertionIndex` returns the first index whose
entry's lowercased first grapheme is lexicographically *strictly greater*
than the new entry's lowercased first grapheme, or the list length if no
such index exists: the result is at most the length, every earlier entry
compares not-greater, and the entry at the result (when in range)
compares strictly greater. -/
theorem C5_insertion_index_strictly_greater
    (entries : List LexiconEntry) (newEntry : LexiconEntry) :
    findInsertionIndex entries newEntry ≤ entries.length ∧
    (∀ j e, j < findInsertionIndex entries newEntry → entries[j]? = some e →
      strLt (entryKey newEntry) (entryKey e) = false) ∧
    (∀ e, entries[findInsertionIndex entries newEntry]? = some e →
      strLt (entryKey newEntry) (entryKey e) = true) := by
  unfold findInsertionIndex
  induction entries with
  | nil =>
    refine ⟨Nat.le_refl 0, ?_, ?_⟩
    · intro j e hj _
      simp [findInsertionAux] at hj
    · intro e he
      simp at he
  | cons x xs ih =>
    by_cases hlt : strLt (entryKey newEntry) (entryKey x) = true
    · simp only [findInsertionAux, hlt, if_true]
      refine ⟨Nat.zero_le _, ?_, ?_⟩
      · intro j e hj _
        omega
      · intro e he
        simp at he
        rw [← he]
        exact hlt
    · simp only [findInsertionAux, hlt, if_false, Bool.false_eq_true]
      refine ⟨Nat.succ_le_succ ih.1, ?_, ?_⟩
      · intro j e hj hje
        cases j with
        | zero =>
          simp at hje
          rw [← hje]
          exact Bool.eq_false_iff.mpr hlt
        | succ j2 =>
          simp only [List.getElem?_cons_succ] at hje
          exact ih.2.1 j2 e (by omega) hje
      · intro e he
        simp only [List.getElem?_cons_succ] at he
        exact ih.2.2 e he

/-- C5 witness: with entries keyed `"apple"`, `"cat"` and a new entry
keyed `"banana"`, the computed index `1` has a not-greater entry before it
and a strictly greater entry at it. -/
theorem C5_insertion_index_witness :
    strLt (entryKey ({ graphemes := ["banana"] } : LexiconEntry))
      (entryKey ({ graphemes := ["apple"] } : LexiconEntry)) = false ∧
    strLt (entryKey ({ graphemes := ["banana"] } : LexiconEntry))
      (entryKey ({ graphemes := ["cat"] } : LexiconEntry)) = true :=
  ⟨(C5_insertion_index_strictly_greater
      [{ graphemes := ["apple"] }, { graphemes := ["cat"] }]
      { graphemes := ["banana"] }).2.1 0 { graphemes := ["apple"] } (by decide) (by decide),
   (C5_insertion_index_strictly_greater
      [{ graphemes := ["apple"] }, { graphemes := ["cat"] }]
      { graphemes := ["banana"] }).2.2 { graphemes := ["cat"] } (by decide)⟩

/-! ### C6: the sort invariant -/

theorem mem_spliceInsert {α : Type} (e a : α) :
    ∀ (n : Nat) (l : List α), a ∈ spliceInsert e n l ↔ a = e ∨ a ∈ l := by
  intro n l
  induction l generalizing n with
  | nil =>
    cases n <;> simp [spliceInsert]
  | cons x xs ih =>
    cases n with
    | zero => simp [spliceInsert]
    | succ n2 =>
      simp only [spliceInsert, List.mem_cons, ih n2]
      tauto

theorem sorted_insert_at_findInsertionIndex
    (l : List LexiconEntry) (e : LexiconEntry) (h : entriesSorted l) :
    entriesSorted (spliceInsert e (findInsertionIndex l e) l) := by
  unfold findInsertionIndex
  induction l with
  | nil =>
    simp [findInsertionAux, spliceInsert, entriesSorted]
  | cons x xs ih =>
    have hx : ∀ b ∈ xs, strLe (entryKey x) (entryKey b) = true :=
      (List.pairwise_cons.mp h).1
    have hxs : entriesSorted xs := (List.pairwise_cons.mp h).2
    by_cases hlt : strLt (entryKey e) (entryKey x) = true
    · simp only [findInsertionAux, hlt, if_true, spliceInsert]
      refine List.Pairwise.cons ?_ h
      intro b hb
      rcases List.mem_cons.mp hb with hb | hb
      · rw [hb]
        unfold strLe
        rw [strLt_asymm hlt]
        rfl
      · have hxb := hx b hb
        unfold strLe at hxb ⊢
        by_cases hbe : strLt (entryKey b) (entryKey e) = true
        · have : strLt (entryKey b) (entryKey x) = true := strLt_trans hbe hlt
          rw [this] at hxb
          simp at hxb
        · rw [Bool.eq_false_iff.mpr hbe]
          rfl
    · simp only [findInsertionAux, hlt, if_false, Bool.false_eq_true, spliceInsert]
      refine List.Pairwise.cons ?_ (ih hxs)
      intro b hb
      rcases (mem_spliceInsert e b _ xs).mp hb with hb | hb
      · rw [hb]
        unfold strLe
        rw [Bool.eq_false_iff.mpr hlt]
        rfl
      · exact hx b hb

/-- C6: inserting an entry at the index computed by `findInsertionIndex`
preserves non-decreasing case-insensitive first-grapheme order, both for
the new-entry path (insert into the current list) and the first-grapheme
rename path (remove the entry, then insert into the remainder). -/
theorem C6_sort_invariant :
    (∀ (l : List LexiconEntry) (e : LexiconEntry), entriesSorted l →
       entriesSorted (spliceInsert e (findInsertionIndex l e) l)) ∧
    (∀ (l : List LexiconEntry) (i : Nat) (e : LexiconEntry), entriesSorted l →
       entriesSorted (spliceInsert e (findInsertionIndex (l.eraseIdx i) e) (l.eraseIdx i))) :=
  ⟨fun l e h => sorted_insert_at_findInsertionIndex l e h,
   fun l i e h =>
     sorted_insert_at_findInsertionIndex _ e
       (List.Pairwise.sublist (List.eraseIdx_sublist l i) h)⟩

/-- C6 witness: inserting a `"banana"` entry into a sorted two-entry list
keeps the list sorted. -/
theorem C6_sort_invariant_witness :
    entriesSorted [({ graphemes := ["apple"] } : LexiconEntry), { graphemes := ["cat"] }] ∧
    entriesSorted (spliceInsert ({ graphemes := ["banana"] } : LexiconEntry)
      (findInsertionIndex [{ graphemes := ["apple"] }, { graphemes := ["cat"] }]
        { graphemes := ["banana"] })
      [{ graphemes := ["apple"] }, { graphemes := ["cat"] }]) :=
  ⟨by decide,
   C6_sort_invariant.1 [{ graphemes := ["apple"] }, { graphemes := ["cat"] }]
     { graphemes := ["banana"] } (by decide)⟩

/-! ### C7: validation totality -/

theorem ne_empty_of_jsTrim_ne_empty {s : String} (h : jsTrim s ≠ "") : s ≠ "" := by
  intro he
  rw [he] at h
  exact h rfl

theorem jsTruthy_of_getD_ne_empty {o : Option String} (h : o.getD "" ≠ "") :
    jsTruthy o = true := by
  cases o with
  | none => exact absurd rfl h
  | some s =>
    simp only [Option.getD_some] at h
    simp [jsTruthy, h]

theorem validateEntry_eq_nil_iff (entry : LexiconEntry) :
    validateEntry entry = [] ↔
      entry.graphemes.any (fun g => jsTrim g ≠ "" && g ≠ NEW_ENTRY_PLACEHOLDER) = true ∧
      (jsTrim (entry.«alias».getD "") ≠ "" ∨ jsTrim (entry.phoneme.getD "") ≠ "") ∧
      ((jsTrim (entry.phoneme.getD "") ≠ "" ∧ jsTruthy entry.phoneme = true) →
        ipaTestFull (entry.phoneme.getD "") = true) := by
  unfold validateEntry
  by_cases h1 : entry.graphemes.any (fun g => jsTrim g ≠ "" && g ≠ NEW_ENTRY_PLACEHOLDER) = true <;>
    by_cases h2 : jsTrim (entry.«alias».getD "") ≠ "" <;>
    by_cases h3 : jsTrim (entry.phoneme.getD "") ≠ "" <;>
    by_cases h4 : jsTruthy entry.phoneme = true <;>
    by_cases h5 : ipaTestFull (entry.phoneme.getD "") = true <;>
    simp [h1, h2, h3, h4, h5]

/-- C7: `validateEntry` returns the empty list exactly when the entry has
a non-empty non-sentinel grapheme, a non-blank alias or phoneme, and a
phoneme (when present after trimming) drawn entirely from the IPA
character class. -/
theorem C7_validation_totality (entry : LexiconEntry) :
    validateEntry entry = [] ↔ specValidEntry entry := by
  rw [validateEntry_eq_nil_iff]
  unfold specValidEntry
  constructor
  · intro h
    obtain ⟨h1, h2, h3⟩ := h
    refine ⟨by simpa [List.any_eq_true] using h1, h2, ?_⟩
    intro hp
    have hraw : entry.phoneme.getD "" ≠ "" := ne_empty_of_jsTrim_ne_empty hp
    have hipa := h3 ⟨hp, jsTruthy_of_getD_ne_empty hraw⟩
    simpa [ipaTestFull, hraw] using hipa
  · intro h
    obtain ⟨h1, h2, h3⟩ := h
    refine ⟨by simpa [List.any_eq_true] using h1, h2, ?_⟩
    intro hp
    have hraw : entry.phoneme.getD "" ≠ "" := ne_empty_of_jsTrim_ne_empty hp.1
    simp [ipaTestFull, hraw, h3 hp.1]

/-! ### C1: Scenario B classification -/

/-- C1: the claim says Scenario B (master grapheme `"Cat"`, incoming
grapheme `"cat"`, same phoneme, no aliases) yields exactly one
`additional_alias` conflict.  The code instead classifies the pair as
identical — `areIdentical` lowercases graphemes — so `analyzeConflicts`
emits no conflict record and the fast path counts the entry as
identical-skipped. -/
theorem C1_scenarioB_no_conflict :
    analyzeConflicts [{ graphemes := ["Cat"], phoneme := some "kæt" }]
        [{ graphemes := ["cat"], phoneme := some "kæt" }] = [] ∧
    areIdentical { graphemes := ["Cat"], phoneme := some "kæt" }
        { graphemes := ["cat"], phoneme := some "kæt" } = true ∧
    (performMerge [{ graphemes := ["Cat"], phoneme := some "kæt" }]
        [{ graphemes := ["cat"], phoneme := some "kæt" }] 0).2 =
      { newEntries := 0, conflictsResolved := 0, identicalSkipped := 1
      , totalProcessed := 1, errorsFound := 0 } ∧
    analyzeConflicts [{ graphemes := ["Cat"], «alias» := some "", phoneme := some "kæt" }]
        [{ graphemes := ["cat"], «alias» := some "", phoneme := some "kæt" }] = [] := by
  decide

/-! ### C2: the all-or-nothing finalisation gate -/

/-- C2: if any pending conflict has an unset (`null`) resolution, the
Complete Merge control is disabled, so finalisation rejects and the whole
merge state — in particular the current entry list — is unchanged. -/
theorem C2_finalize_all_or_nothing (st : MergeState)
    (h : ∃ c ∈ st.mergeConflicts, c.resolution = none) :
    completeMergeClick st = st := by
  unfold completeMergeClick
  have hdis : completeMergeDisabled st.mergeConflicts = true := by
    rcases h with ⟨c, hc, hr⟩
    unfold completeMergeDisabled
    rw [List.any_eq_true]
    exact ⟨c, hc, by rw [hr]; rfl⟩
  rw [if_pos hdis]

/-- C2 witness: a one-conflict state with a `null` resolution is left
untouched by Complete Merge. -/
theorem C2_finalize_all_or_nothing_witness :
    completeMergeClick
      { entries := [{ graphemes := ["cat"], phoneme := some "kæt" }]
      , mergeFileContent := [{ graphemes := ["cat"], phoneme := some "kat" }]
      , mergeConflicts :=
          [{ type := .conflict
           , masterEntry := { graphemes := ["cat"], phoneme := some "kæt" }
           , mergeEntry := { graphemes := ["cat"], phoneme := some "kat" }
           , masterIndex := 0, mergeIndex := 0, commonGraphemes := ["cat"]
           , resolution := none }] } =
      { entries := [{ graphemes := ["cat"], phoneme := some "kæt" }]
      , mergeFileContent := [{ graphemes := ["cat"], phoneme := some "kat" }]
      , mergeConflicts :=
          [{ type := .conflict
           , masterEntry := { graphemes := ["cat"], phoneme := some "kæt" }
           , mergeEntry := { graphemes := ["cat"], phoneme := some "kat" }
           , masterIndex := 0, mergeIndex := 0, commonGraphemes := ["cat"]
           , resolution := none }] } :=
  C2_finalize_all_or_nothing _ (by decide)

/-! ### C4: the `both` resolution semantics -/

/-- C4: resolving a conflict with `both` replaces the master entry at the
conflict's master index by an entry whose graphemes are the master's
graphemes followed by the incoming graphemes not already present
case-insensitively, and whose alias and phoneme are the incoming entry's
values when non-empty, else the master's; in Scenario C the single
conflict has type `conflict` and resolving `both` yields graphemes
`["cat"]` with phoneme `"kat"`. -/
theorem C4_both_resolution_semantics :
    (∀ (entries : List LexiconEntry) (n : Nat) (c : MergeConflict),
       c.resolution = some .both →
       resolveStep (entries, n) c =
         (entries.set c.masterIndex
           { graphemes := c.masterEntry.graphemes ++
               c.mergeEntry.graphemes.filter
                 (fun g => !((lowerList c.masterEntry.graphemes).contains (jsToLower g)))
           , «alias» := if jsTruthy c.mergeEntry.«alias» then c.mergeEntry.«alias»
                        else c.masterEntry.«alias»
           , aliasSayAsType := none
           , phoneme := if jsTruthy c.mergeEntry.phoneme then c.mergeEntry.phoneme
                        else c.masterEntry.phoneme
           , phonemeSayAsType := none
           , isNew := true }, n + 1)) ∧
    analyzeConflicts [{ graphemes := ["cat"], phoneme := some "kæt" }]
        [{ graphemes := ["cat"], phoneme := some "kat" }] =
      [{ type := .conflict
       , masterEntry := { graphemes := ["cat"], phoneme := some "kæt" }
       , mergeEntry := { graphemes := ["cat"], phoneme := some "kat" }
       , masterIndex := 0, mergeIndex := 0, commonGraphemes := ["cat"]
       , resolution := none }] ∧
    completeMergeClick
      { entries := [{ graphemes := ["cat"], phoneme := some "kæt" }]
      , mergeFileContent := [{ graphemes := ["cat"], phoneme := some "kat" }]
      , mergeConflicts :=
          [{ type := .conflict
           , masterEntry := { graphemes := ["cat"], phoneme := some "kæt" }
           , mergeEntry := { graphemes := ["cat"], phoneme := some "kat" }
           , masterIndex := 0, mergeIndex := 0, commonGraphemes := ["cat"]
           , resolution := some .both }] } =
      { entries := [{ graphemes := ["cat"], phoneme := some "kat", isNew := true }]
      , mergeFileContent := [], mergeConflicts := [] } := by
  refine ⟨?_, by decide, by decide⟩
  intro entries n c hres
  unfold resolveStep
  rw [hres]
  rfl

/-- C4 witness: the `both` replacement evaluated on a concrete
two-element master list with an alias-free incoming entry. -/
theorem C4_both_resolution_semantics_witness :
    resolveStep ([{ graphemes := ["ant"] , phoneme := some "ænt" },
                  { graphemes := ["cat", "Kat"], «alias» := some "feline", phoneme := some "kæt" }], 0)
      { type := .conflict
      , masterEntry := { graphemes := ["cat", "Kat"], «alias» := some "feline", phoneme := some "kæt" }
      , mergeEntry := { graphemes := ["KAT", "kitty"], phoneme := some "kat" }
      , masterIndex := 1, mergeIndex := 0, commonGraphemes := ["cat"]
      , resolution := some .both } =
    ([{ graphemes := ["ant"], phoneme := some "ænt" },
      { graphemes := ["cat", "Kat", "kitty"], «alias» := some "feline"
      , phoneme := some "kat", isNew := true }], 1) :=
  (C4_both_resolution_semantics.1 _ 0 _ rfl).trans (by decide)

/-! ### C3: merge idempotence -/

theorem mem_listFlat {α : Type} (a : α) : ∀ (ls : List (List α)),
    a ∈ listFlat ls ↔ ∃ l ∈ ls, a ∈ l := by
  intro ls
  induction ls with
  | nil => simp [listFlat]
  | cons l ls ih =>
    simp [listFlat, List.mem_append, ih]

theorem listFlat_eq_nil_iff {α : Type} (ls : List (List α)) :
    listFlat ls = [] ↔ ∀ l ∈ ls, l = [] := by
  induction ls with
  | nil => simp [listFlat]
  | cons l ls ih =>
    simp [listFlat, List.append_eq_nil, ih]

theorem mem_enumFromIdx {α : Type} (p : Nat × α) : ∀ (k : Nat) (l : List α),
    p ∈ enumFromIdx k l ↔ ∃ j, p.1 = k + j ∧ l[j]? = some p.2 := by
  intro k l
  induction l generalizing k with
  | nil => simp [enumFromIdx]
  | cons x xs ih =>
    simp only [enumFromIdx, List.mem_cons, ih (k + 1)]
    constructor
    · rintro (hp | ⟨j, hj1, hj2⟩)
      · exact ⟨0, by simp [hp], by rw [hp]; simp⟩
      · exact ⟨j + 1, by omega, by simpa using hj2⟩
    · rintro ⟨j, hj1, hj2⟩
      cases j with
      | zero =>
        left
        simp only [List.getElem?_cons_zero, Option.some.injEq] at hj2
        obtain ⟨p1, p2⟩ := p
        simp only at hj1 hj2
        simp [hj1, hj2]
      | succ j2 =>
        right
        exact ⟨j2, by omega, by simpa using hj2⟩

theorem areIdentical_refl (e : LexiconEntry) : areIdentical e e = true := by
  simp [areIdentical]

theorem graphemeDisjoint_symm {a b : LexiconEntry} (h : graphemeDisjoint a b) :
    graphemeDisjoint b a := by
  intro g hg g2 hg2
  exact fun he => h g2 hg2 g hg he.symm

theorem sharesGrapheme_iff (me m : LexiconEntry) :
    sharesGrapheme (lowerList me.graphemes) m = true ↔
      ∃ mg ∈ m.graphemes, ∃ g2 ∈ me.graphemes, jsToLower mg = jsToLower g2 := by
  unfold sharesGrapheme lowerList
  simp only [List.any_eq_true]
  constructor
  · rintro ⟨mg, hmg, hc⟩
    have : jsToLower mg ∈ me.graphemes.map jsToLower := by simpa using hc
    obtain ⟨g2, hg2, hge⟩ := List.mem_map.mp this
    exact ⟨mg, hmg, g2, hg2, hge.symm⟩
  · rintro ⟨mg, hmg, g2, hg2, hge⟩
    refine ⟨mg, hmg, ?_⟩
    have : jsToLower mg ∈ me.graphemes.map jsToLower :=
      List.mem_map.mpr ⟨g2, hg2, hge.symm⟩
    simpa using this

theorem not_shares_of_disjoint {a b : LexiconEntry} (h : graphemeDisjoint a b) :
    sharesGrapheme (lowerList b.graphemes) a = false := by
  rw [Bool.eq_false_iff]
  intro hs
  obtain ⟨mg, hmg, g2, hg2, hge⟩ := (sharesGrapheme_iff b a).mp hs
  exact h mg hmg g2 hg2 hge

theorem shares_self (e : LexiconEntry) (h : e.graphemes ≠ []) :
    sharesGrapheme (lowerList e.graphemes) e = true := by
  obtain ⟨g, hg⟩ := List.exists_mem_of_ne_nil e.graphemes h
  exact (sharesGrapheme_iff e e).mpr ⟨g, hg, g, hg, rfl⟩

theorem share_imp_same (master : List LexiconEntry)
    (hdisj : List.Pairwise graphemeDisjoint master)
    {i j : Nat} {m me : LexiconEntry}
    (hm : master[i]? = some m) (hme : master[j]? = some me)
    (hshare : sharesGrapheme (lowerList me.graphemes) m = true) :
    i = j ∧ m = me := by
  have hi : i < master.length := by
    by_contra hc
    rw [List.getElem?_eq_none (by omega)] at hm
    exact Option.noConfusion hm
  have hj : j < master.length := by
    by_contra hc
    rw [List.getElem?_eq_none (by omega)] at hme
    exact Option.noConfusion hme
  have hmv : master.get ⟨i, hi⟩ = m := by
    rw [List.get_eq_getElem]
    rw [List.getElem?_eq_getElem hi] at hm
    exact Option.some.inj hm
  have hmev : master.get ⟨j, hj⟩ = me := by
    rw [List.get_eq_getElem]
    rw [List.getElem?_eq_getElem hj] at hme
    exact Option.some.inj hme
  rcases Nat.lt_trichotomy i j with hij | hij | hij
  · have hrel := List.pairwise_iff_get.mp hdisj ⟨i, hi⟩ ⟨j, hj⟩ hij
    rw [hmv, hmev] at hrel
    rw [not_shares_of_disjoint hrel] at hshare
    exact Bool.noConfusion hshare
  · refine ⟨hij, ?_⟩
    rw [← hmv, ← hmev]
    congr 1
    exact Fin.ext hij
  · have hrel := List.pairwise_iff_get.mp hdisj ⟨j, hj⟩ ⟨i, hi⟩ hij
    rw [hmv, hmev] at hrel
    rw [not_shares_of_disjoint (graphemeDisjoint_symm hrel)] at hshare
    exact Bool.noConfusion hshare

theorem performMergeStep_identical (master : List LexiconEntry)
    (hne : ∀ e ∈ master, e.graphemes ≠ [])
    (hdisj : List.Pairwise graphemeDisjoint master)
    (e : LexiconEntry) (he : e ∈ master) (n k : Nat) :
    performMergeStep (master, n, k) e = (master, n, k + 1) := by
  unfold performMergeStep
  have hany : master.any (fun m => sharesGrapheme (lowerList e.graphemes) m) = true :=
    List.any_eq_true.mpr ⟨e, he, shares_self e (hne e he)⟩
  rw [if_pos hany]
  have hsome : (master.find? (fun m => sharesGrapheme (lowerList e.graphemes) m)).isSome = true := by
    rw [List.find?_isSome]
    exact ⟨e, he, shares_self e (hne e he)⟩
  obtain ⟨m0, hm0⟩ := Option.isSome_iff_exists.mp hsome
  rw [hm0]
  have hm0share : sharesGrapheme (lowerList e.graphemes) m0 = true := List.find?_some hm0
  have hm0mem : m0 ∈ master := List.mem_of_find?_eq_some hm0
  obtain ⟨i, hi⟩ := List.mem_iff_getElem?.mp hm0mem
  obtain ⟨j, hj⟩ := List.mem_iff_getElem?.mp he
  obtain ⟨_, hm0e⟩ := share_imp_same master hdisj hi hj hm0share
  rw [hm0e]
  simp [areIdentical_refl]

theorem performMerge_loop (master : List LexiconEntry)
    (hne : ∀ e ∈ master, e.graphemes ≠ [])
    (hdisj : List.Pairwise graphemeDisjoint master) :
    ∀ (todo : List LexiconEntry) (n k : Nat), (∀ e ∈ todo, e ∈ master) →
      todo.foldl performMergeStep (master, n, k) = (master, n, k + todo.length) := by
  intro todo
  induction todo with
  | nil => intro n k _; simp
  | cons e rest ih =>
    intro n k htodo
    rw [List.foldl_cons,
      performMergeStep_identical master hne hdisj e (htodo e (List.mem_cons_self e rest)) n k,
      ih n (k + 1) (fun x hx => htodo x (List.mem_cons_of_mem e hx))]
    simp only [List.length_cons]
    congr 1
    congr 1
    omega

/-- C3: the claim quantifies over every master list; it fails when two
distinct master entries share a grapheme case-insensitively — merging
such a master with itself emits conflict records. -/
theorem C3_counterexample :
    analyzeConflicts
      [{ graphemes := ["cat"], phoneme := some "a" },
       { graphemes := ["cat"], phoneme := some "b" }]
      [{ graphemes := ["cat"], phoneme := some "a" },
       { graphemes := ["cat"], phoneme := some "b" }] ≠ [] := by
  decide

/-- C3 (amended): for every master list in which every entry has at least
one grapheme and no two distinct entries share a grapheme
case-insensitively, merging an incoming list equal to the master produces
zero conflict records, zero new entries, and an identicalSkipped count
equal to the length of the incoming list. -/
theorem C3_merge_idempotence (master : List LexiconEntry)
    (hne : ∀ e ∈ master, e.graphemes ≠ [])
    (hdisj : List.Pairwise graphemeDisjoint master) :
    analyzeConflicts master master = [] ∧
    (performMerge master master 0).2.newEntries = 0 ∧
    (performMerge master master 0).2.identicalSkipped = (master.length : Int) := by
  refine ⟨?_, ?_⟩
  · unfold analyzeConflicts
    rw [listFlat_eq_nil_iff]
    intro inner hinner
    obtain ⟨mp, hmp, hmpe⟩ := List.mem_map.mp hinner
    obtain ⟨j, hj1, hj2⟩ := (mem_enumFromIdx mp 0 master).mp hmp
    rw [← hmpe]
    rw [listFlat_eq_nil_iff]
    intro inner2 hinner2
    obtain ⟨q, hq, hqe⟩ := List.mem_map.mp hinner2
    obtain ⟨hqmem, hqshare⟩ := List.mem_filter.mp hq
    obtain ⟨i, hi1, hi2⟩ := (mem_enumFromIdx q 0 master).mp hqmem
    obtain ⟨_, hqme⟩ := share_imp_same master hdisj hi2 hj2 (by simpa using hqshare)
    rw [← hqe]
    unfold conflictFor
    rw [hqme, areIdentical_refl mp.2]
    rfl
  · have hloop := performMerge_loop master hne hdisj master 0 0 (fun e he => he)
    unfold performMerge
    rw [hloop]
    simp

/-- C3 witness: a two-entry master with disjoint graphemes merges with
itself to zero conflicts, zero new entries and two identical skips. -/
theorem C3_merge_idempotence_witness :
    analyzeConflicts
      [{ graphemes := ["ant"], phoneme := some "ænt" },
       { graphemes := ["cat"], phoneme := some "kæt" }]
      [{ graphemes := ["ant"], phoneme := some "ænt" },
       { graphemes := ["cat"], phoneme := some "kæt" }] = [] ∧
    (performMerge
      [{ graphemes := ["ant"], phoneme := some "ænt" },
       { graphemes := ["cat"], phoneme := some "kæt" }]
      [{ graphemes := ["ant"], phoneme := some "ænt" },
       { graphemes := ["cat"], phoneme := some "kæt" }] 0).2.newEntries = 0 ∧
    (performMerge
      [{ graphemes := ["ant"], phoneme := some "ænt" },
       { graphemes := ["cat"], phoneme := some "kæt" }]
      [{ graphemes := ["ant"], phoneme := some "ænt" },
       { graphemes := ["cat"], phoneme := some "kæt" }] 0).2.identicalSkipped = (2 : Int) :=
  C3_merge_idempotence
    [{ graphemes := ["ant"], phoneme := some "ænt" },
     { graphemes := ["cat"], phoneme := some "kæt" }]
    (by decide) (by decide)

/-! ### Trim normalisation lemmas -/

theorem head_dropWhile_false {α : Type} (p : α → Bool) (l : List α) :
    ∀ c, (l.dropWhile p).head? = some c → p c = false := by
  induction l with
  | nil => intro c hc; simp at hc
  | cons x xs ih =>
    intro c hc
    rw [List.dropWhile_cons] at hc
    by_cases hx : p x = true
    · rw [if_pos hx] at hc
      exact ih c hc
    · rw [if_neg hx] at hc
      simp only [List.head?_cons, Option.some.injEq] at hc
      rw [← hc]
      exact Bool.eq_false_iff.mpr hx

theorem dropWhile_eq_self_of_head {α : Type} (p : α → Bool) (l : List α)
    (h : ∀ c, l.head? = some c → p c = false) : l.dropWhile p = l := by
  cases l with
  | nil => rfl
  | cons x xs =>
    rw [List.dropWhile_cons, if_neg]
    simp [h x rfl]

theorem jsTrimChars_eq_self (l : List Char)
    (hh : ∀ c, l.head? = some c → jsWhitespaceChar c = false)
    (hl : ∀ c, l.getLast? = some c → jsWhitespaceChar c = false) :
    jsTrimChars l = l := by
  unfold jsTrimChars
  rw [dropWhile_eq_self_of_head _ _ hh]
  rw [dropWhile_eq_self_of_head _ _ (fun c hc => hl c (by rwa [List.head?_reverse] at hc))]
  exact List.reverse_reverse l

theorem jsTrimChars_getLast (l : List Char) :
    ∀ c, (jsTrimChars l).getLast? = some c → jsWhitespaceChar c = false := by
  intro c hc
  unfold jsTrimChars at hc
  rw [List.getLast?_reverse] at hc
  exact head_dropWhile_false _ _ c hc

theorem jsTrimChars_head (l : List Char) :
    ∀ c, (jsTrimChars l).head? = some c → jsWhitespaceChar c = false := by
  intro c hc
  unfold jsTrimChars at hc
  rw [List.head?_reverse] at hc
  obtain ⟨t, ht⟩ :=
    List.dropWhile_suffix (l := (List.dropWhile jsWhitespaceChar l).reverse) jsWhitespaceChar
  have h2 : (List.dropWhile jsWhitespaceChar l).reverse.getLast? = some c := by
    rw [← ht, List.getLast?_append, hc]
    rfl
  rw [List.getLast?_reverse] at h2
  exact head_dropWhile_false _ _ c h2

theorem jsTrim_idem (s : String) : jsTrim (jsTrim s) = jsTrim s := by
  show (⟨jsTrimChars (jsTrimChars s.data)⟩ : String) = ⟨jsTrimChars s.data⟩
  rw [jsTrimChars_eq_self _ (jsTrimChars_head s.data) (jsTrimChars_getLast s.data)]

/-! ### C10: decode trims fields and skips empty-grapheme rows -/

theorem optField_normalized (s : String) (h : jsTrim s = s) :
    normalizedOptField (optField s) := by
  intro t ht
  unfold optField at ht
  by_cases hs : s = ""
  · rw [if_pos hs] at ht
    exact Option.noConfusion ht
  · rw [if_neg hs] at ht
    cases Option.some.inj ht
    exact ⟨hs, h⟩

theorem mapPushGrapheme_ok (key g : String) (fresh : LexiconEntry)
    (hg : g ≠ "" ∧ jsTrim g = g) (hfresh : decodedEntryOk fresh) :
    ∀ (acc : List (String × LexiconEntry)),
      (∀ p ∈ acc, decodedEntryOk p.2) →
      ∀ p ∈ mapPushGrapheme acc key g fresh, decodedEntryOk p.2 := by
  intro acc
  induction acc with
  | nil =>
    intro _ p hp
    simp only [mapPushGrapheme, List.mem_singleton] at hp
    rw [hp]
    refine ⟨?_, hfresh.2⟩
    intro g2 hg2
    simp only [List.mem_singleton] at hg2
    rw [hg2]
    exact hg
  | cons q rest ih =>
    intro hacc p hp
    obtain ⟨k, e⟩ := q
    unfold mapPushGrapheme at hp
    by_cases hk : k = key
    · rw [if_pos hk] at hp
      rcases List.mem_cons.mp hp with hp | hp
      · rw [hp]
        have he : decodedEntryOk e := hacc (k, e) (List.mem_cons_self _ _)
        refine ⟨?_, he.2⟩
        intro g2 hg2
        rcases List.mem_append.mp hg2 with hg2 | hg2
        · exact he.1 g2 hg2
        · simp only [List.mem_singleton] at hg2
          rw [hg2]
          exact hg
      · exact hacc p (List.mem_cons_of_mem _ hp)
    · rw [if_neg hk] at hp
      rcases List.mem_cons.mp hp with hp | hp
      · rw [hp]
        exact hacc (k, e) (List.mem_cons_self _ _)
      · exact ih (fun r hr => hacc r (List.mem_cons_of_mem _ hr)) p hp

theorem rowStep_ok (gi ai asi phi psi : Nat) (acc : List (String × LexiconEntry))
    (cols : List String) (hacc : ∀ p ∈ acc, decodedEntryOk p.2) :
    ∀ p ∈ rowStep gi ai asi phi psi acc cols, decodedEntryOk p.2 := by
  intro p hp
  simp only [rowStep] at hp
  by_cases hg : jsTrim (cols.getD gi "") = ""
  · rw [if_pos hg] at hp
    exact hacc p hp
  · rw [if_neg hg] at hp
    refine mapPushGrapheme_ok _ _ _ ⟨hg, jsTrim_idem _⟩ ?_ acc hacc p hp
    refine ⟨by simp, ?_, ?_, ?_, ?_⟩ <;> exact optField_normalized _ (jsTrim_idem _)

theorem foldRows_ok (gi ai asi phi psi : Nat) (splitLine : String → List String) :
    ∀ (rows : List String) (acc : List (String × LexiconEntry)),
      (∀ p ∈ acc, decodedEntryOk p.2) →
      ∀ p ∈ rows.foldl (fun acc2 line => rowStep gi ai asi phi psi acc2 (splitLine line)) acc,
        decodedEntryOk p.2 := by
  intro rows
  induction rows with
  | nil => intro acc hacc p hp; exact hacc p hp
  | cons r rest ih =>
    intro acc hacc p hp
    rw [List.foldl_cons] at hp
    exact ih _ (rowStep_ok gi ai asi phi psi acc (splitLine r) hacc) p hp

theorem parseRows_ok (splitLine : String → List String) (m1 m2 content : String)
    (entries : List LexiconEntry)
    (h : parseRows splitLine m1 m2 content = .ok entries) :
    ∀ e ∈ entries, decodedEntryOk e := by
  intro e he
  simp only [parseRows] at h
  split at h
  · split at h
    · have hentries := Except.ok.inj h
      rw [← hentries] at he
      obtain ⟨p, hp, hpe⟩ := List.mem_map.mp he
      rw [← hpe]
      exact foldRows_ok _ _ _ _ _ _ _ _ (by intro q hq; simp at hq) p hp
    · exact Except.noConfusion h
  · exact Except.noConfusion h

/-- C10: every entry decoded from CSV or TSV has only non-empty,
trim-normalised graphemes and absent-or-non-empty trim-normalised
optional fields (fields are trimmed before use, an all-whitespace alias
or phoneme becomes absent), and a data row whose grapheme field is empty
after trimming is skipped without any effect or report. -/
theorem C10_fields_trimmed_empty_rows_skipped :
    (∀ (content : String) (entries : List LexiconEntry),
       parseCSV content = .ok entries → ∀ e ∈ entries, decodedEntryOk e) ∧
    (∀ (content : String) (entries : List LexiconEntry),
       parseTSV content = .ok entries → ∀ e ∈ entries, decodedEntryOk e) ∧
    (∀ (gi ai asi phi psi : Nat) (acc : List (String × LexiconEntry)) (cols : List String),
       jsTrim (cols.getD gi "") = "" → rowStep gi ai asi phi psi acc cols = acc) := by
  refine ⟨?_, ?_, ?_⟩
  · intro content entries h
    exact parseRows_ok _ _ _ _ _ h
  · intro content entries h
    exact parseRows_ok _ _ _ _ _ h
  · intro gi ai asi phi psi acc cols hg
    simp only [rowStep]
    rw [if_pos hg]

/-- C10 witness: a CSV file with whitespace-padded fields decodes to a
trim-normalised entry, and a whitespace-grapheme row leaves the
accumulator untouched. -/
theorem C10_fields_trimmed_empty_rows_skipped_witness :
    decodedEntryOk { graphemes := ["dog"], phoneme := some "dɒg" } ∧
    rowStep 0 1 2 3 4 [] ["  ", "x", "", "y", ""] = [] :=
  ⟨C10_fields_trimmed_empty_rows_skipped.1
      "grapheme,alias,alias_say_as,phoneme,phoneme_say_as\n dog ,  ,, dɒg ,"
      [{ graphemes := ["dog"], phoneme := some "dɒg" }] rfl
      { graphemes := ["dog"], phoneme := some "dɒg" } (by decide),
   C10_fields_trimmed_empty_rows_skipped.2.2 0 1 2 3 4 [] ["  ", "x", "", "y", ""] (by decide)⟩

/-! ### C9: merge-file entries and replacements carry no say-as tags -/

/-- C9: entries parsed from a merge file carry only graphemes, alias and
phoneme (no say-as tags); every conflict's incoming entry comes from the
parsed merge list; and the replacement entry written by a `merge` or
`both` resolution has no `aliasSayAsType` and no `phonemeSayAsType`, so
any say-as tags on the overwritten master entry are dropped. -/
theorem C9_sayas_tags_dropped :
    (∀ (raw : RawLexeme) (e : LexiconEntry), parseMergeEntry raw = .ok e →
       e.aliasSayAsType = none ∧ e.phonemeSayAsType = none) ∧
    (∀ (masterEntries mergeEntries : List LexiconEntry) (c : MergeConflict),
       c ∈ analyzeConflicts masterEntries mergeEntries → c.mergeEntry ∈ mergeEntries) ∧
    (∀ (entries : List LexiconEntry) (n : Nat) (c : MergeConflict),
       c.resolution = some .both →
       ∃ r, resolveStep (entries, n) c = (entries.set c.masterIndex r, n + 1) ∧
         r.aliasSayAsType = none ∧ r.phonemeSayAsType = none) ∧
    (∀ (entries : List LexiconEntry) (n : Nat) (c : MergeConflict),
       c.resolution = some .merge →
       c.mergeEntry.aliasSayAsType = none → c.mergeEntry.phonemeSayAsType = none →
       ∃ r, resolveStep (entries, n) c = (entries.set c.masterIndex r, n + 1) ∧
         r.aliasSayAsType = none ∧ r.phonemeSayAsType = none) := by
  refine ⟨?_, ?_, ?_, ?_⟩
  · intro raw e h
    unfold parseMergeEntry at h
    repeat' split at h
    all_goals first
      | exact Except.noConfusion h
      | (cases Except.ok.inj h; exact ⟨rfl, rfl⟩)
  · intro masterEntries mergeEntries c hc
    unfold analyzeConflicts at hc
    rw [mem_listFlat] at hc
    obtain ⟨inner, hinner, hcin⟩ := hc
    obtain ⟨mp, hmp, hinner2⟩ := List.mem_map.mp hinner
    rw [← hinner2, mem_listFlat] at hcin
    obtain ⟨inner3, hinner3, hcin3⟩ := hcin
    obtain ⟨q, _, hinner4⟩ := List.mem_map.mp hinner3
    have hmpmem : mp.2 ∈ mergeEntries := by
      obtain ⟨j, _, hj⟩ := (mem_enumFromIdx mp 0 mergeEntries).mp hmp
      rw [List.mem_iff_getElem?]
      exact ⟨j, hj⟩
    rw [← hinner4] at hcin3
    unfold conflictFor at hcin3
    repeat' split at hcin3
    all_goals first
      | exact absurd hcin3 (List.not_mem_nil c)
      | (simp only [List.mem_singleton] at hcin3
         rw [hcin3]
         exact hmpmem)
  · intro entries n c hres
    unfold resolveStep
    rw [hres]
    exact ⟨_, rfl, rfl, rfl⟩
  · intro entries n c hres ha hp
    unfold resolveStep
    rw [hres]
    exact ⟨_, rfl, ha, hp⟩

/-- C9 witness: a parsed merge-file entry has no say-as tags. -/
theorem C9_sayas_tags_dropped_witness :
    ({ graphemes := ["dog"], «alias» := some "", phoneme := some "dɒg" } : LexiconEntry).aliasSayAsType = none ∧
    ({ graphemes := ["dog"], «alias» := some "", phoneme := some "dɒg" } : LexiconEntry).phonemeSayAsType = none :=
  C9_sayas_tags_dropped.1 { graphemes := ["dog"], phoneme := some "dɒg" }
    { graphemes := ["dog"], «alias» := some "", phoneme := some "dɒg" } rfl

/-! ### C8: split/join infrastructure -/

theorem mk_data (s : String) : (⟨s.data⟩ : String) = s := by
  cases s
  rfl

theorem jsSplitAux_no_sep (sep : Char) :
    ∀ (r : List Char), (∀ c ∈ r, c ≠ sep) → ∀ (rest cur : List Char),
      jsSplitAux sep (r ++ rest) cur = jsSplitAux sep rest (r.reverse ++ cur) := by
  intro r
  induction r with
  | nil => intro _ rest cur; simp
  | cons c cs ih =>
    intro hr rest cur
    have hc : c ≠ sep := hr c (List.mem_cons_self _ _)
    simp only [List.cons_append, jsSplitAux, if_neg hc, List.append_eq]
    rw [ih (fun x hx => hr x (List.mem_cons_of_mem _ hx)) rest (c :: cur)]
    congr 1
    simp

theorem jsSplitAux_join (sep : Char) :
    ∀ (rows : List (List Char)), rows ≠ [] → (∀ r ∈ rows, ∀ c ∈ r, c ≠ sep) →
      jsSplitAux sep (joinSepChars sep rows) [] = rows := by
  intro rows
  induction rows with
  | nil => intro h; exact absurd rfl h
  | cons r rs ih =>
    intro _ hr
    cases rs with
    | nil =>
      show jsSplitAux sep (joinSepChars sep [r]) [] = [r]
      have h2 := jsSplitAux_no_sep sep r (hr r (List.mem_cons_self _ _)) [] []
      calc jsSplitAux sep (joinSepChars sep [r]) []
          = jsSplitAux sep (r ++ []) [] := by rw [List.append_nil]; rfl
        _ = jsSplitAux sep [] (r.reverse ++ []) := h2
        _ = [r] := by simp [jsSplitAux]
    | cons r2 rs2 =>
      show jsSplitAux sep (r ++ sep :: joinSepChars sep (r2 :: rs2)) [] = r :: r2 :: rs2
      rw [jsSplitAux_no_sep sep r (hr r (List.mem_cons_self _ _)) _ []]
      simp only [jsSplitAux, if_pos rfl]
      rw [ih (List.cons_ne_nil r2 rs2) (fun x hx => hr x (List.mem_cons_of_mem _ hx))]
      simp

theorem jsSplit_jsJoinS (sep : Char) (rows : List String) (hne : rows ≠ [])
    (hsep : ∀ r ∈ rows, ∀ c ∈ r.data, c ≠ sep) :
    jsSplit sep (jsJoinS sep rows) = rows := by
  unfold jsSplit jsJoinS
  rw [show (⟨joinSepChars sep (rows.map String.data)⟩ : String).data
        = joinSepChars sep (rows.map String.data) from rfl]
  rw [jsSplitAux_join sep (rows.map String.data) (by simpa using hne)]
  · rw [List.map_map]
    have : (fun l => (⟨l⟩ : String)) ∘ String.data = id := by
      funext s
      exact mk_data s
    rw [this, List.map_id]
  · intro r hrm c hc
    obtain ⟨s, hs, hsd⟩ := List.mem_map.mp hrm
    rw [← hsd] at hc
    exact hsep s hs c hc

theorem mem_joinSepChars (sep : Char) :
    ∀ (ls : List (List Char)) (c : Char), c ∈ joinSepChars sep ls →
      c = sep ∨ ∃ l ∈ ls, c ∈ l := by
  intro ls
  induction ls with
  | nil => intro c hc; simp [joinSepChars] at hc
  | cons r rs ih =>
    intro c hc
    cases rs with
    | nil =>
      right
      exact ⟨r, List.mem_cons_self _ _, hc⟩
    | cons r2 rs2 =>
      rw [show joinSepChars sep (r :: r2 :: rs2) = r ++ sep :: joinSepChars sep (r2 :: rs2) from rfl] at hc
      rcases List.mem_append.mp hc with hc | hc
      · exact Or.inr ⟨r, List.mem_cons_self _ _, hc⟩
      · rcases List.mem_cons.mp hc with hc | hc
        · exact Or.inl hc
        · rcases ih c hc with hc | ⟨l, hl, hcl⟩
          · exact Or.inl hc
          · exact Or.inr ⟨l, List.mem_cons_of_mem _ hl, hcl⟩

theorem parseCSVLineAux_cons_plain (inQ : Bool) (cur rest : List Char) (c : Char)
    (hc : c ≠ '"') (hcomma : (c = ',' && !inQ) = false) :
    parseCSVLineAux inQ cur (c :: rest) = parseCSVLineAux inQ (c :: cur) rest := by
  rcases rest with _ | ⟨c2, rest2⟩
  · simp [parseCSVLineAux, hc, hcomma]
  · by_cases h2 : c2 = '"'
    · subst h2
      simp [parseCSVLineAux, hc, hcomma]
    · simp [parseCSVLineAux, hc, h2, hcomma]

theorem parseCSVLineAux_cons_comma (cur rest : List Char) :
    parseCSVLineAux false cur (',' :: rest) = cur.reverse :: parseCSVLineAux false [] rest := by
  rcases rest with _ | ⟨c2, rest2⟩
  · simp [parseCSVLineAux]
  · by_cases h2 : c2 = '"'
    · subst h2
      simp [parseCSVLineAux]
    · simp [parseCSVLineAux, h2]

theorem parseCSVLineAux_no_quote :
    ∀ (l cur : List Char), (∀ c ∈ l, c ≠ '"') →
      parseCSVLineAux false cur l = jsSplitAux ',' l cur := by
  intro l
  induction l with
  | nil => intro cur _; rfl
  | cons c cs ih =>
    intro cur hl
    have hc : c ≠ '"' := hl c (List.mem_cons_self _ _)
    have htail : ∀ x ∈ cs, x ≠ '"' := fun x hx => hl x (List.mem_cons_of_mem _ hx)
    by_cases hcomma : c = ','
    · subst hcomma
      rw [parseCSVLineAux_cons_comma, ih [] htail]
      simp [jsSplitAux]
    · rw [parseCSVLineAux_cons_plain false cur cs c hc (by simp [hcomma]), ih (c :: cur) htail]
      simp [jsSplitAux, hcomma]

theorem parseCSVLine_join (fields : List String) (hne : fields ≠ [])
    (hf : ∀ f ∈ fields, ∀ c ∈ f.data, c ≠ '"' ∧ c ≠ ',') :
    parseCSVLine (jsJoinS ',' fields) = fields := by
  unfold parseCSVLine
  have hnq : ∀ c ∈ (jsJoinS ',' fields).data, c ≠ '"' := by
    intro c hc
    rcases mem_joinSepChars ',' (fields.map String.data) c hc with hc | ⟨l, hl, hcl⟩
    · rw [hc]; decide
    · obtain ⟨s, hs, hsd⟩ := List.mem_map.mp hl
      rw [← hsd] at hcl
      exact (hf s hs c hcl).1
  rw [parseCSVLineAux_no_quote _ [] hnq]
  have := jsSplit_jsJoinS ',' fields hne (fun r hr c hc => (hf r hr c hc).2)
  unfold jsSplit jsJoinS at this
  exact this

/-! ### C8: rows survive the data-line filter -/

theorem data_eq_nil_iff (s : String) : s.data = [] ↔ s = "" := by
  constructor
  · intro h
    cases s
    exact congrArg String.mk h
  · intro h
    rw [h]

theorem data_of_jsTrim_eq {s : String} (h : jsTrim s = s) : jsTrimChars s.data = s.data := by
  have h2 : (jsTrim s).data = s.data := by rw [h]
  exact h2

theorem head_not_ws_of_trimmed {s : String} (h : jsTrim s = s) :
    ∀ c, s.data.head? = some c → jsWhitespaceChar c = false := by
  intro c hc
  rw [← data_of_jsTrim_eq h] at hc
  exact jsTrimChars_head s.data c hc

theorem getLast_not_ws_of_trimmed {s : String} (h : jsTrim s = s) :
    ∀ c, s.data.getLast? = some c → jsWhitespaceChar c = false := by
  intro c hc
  rw [← data_of_jsTrim_eq h] at hc
  exact jsTrimChars_getLast s.data c hc

theorem lastNonWs_append_cons (x : List Char) (d : Char) (hd : jsWhitespaceChar d = false)
    (t : List Char) (ht : ∀ c, t.getLast? = some c → jsWhitespaceChar c = false) :
    ∀ c, (x ++ d :: t).getLast? = some c → jsWhitespaceChar c = false := by
  intro c hc
  rw [List.getLast?_append] at hc
  cases t with
  | nil =>
    have h2 : (some d).or x.getLast? = some c := hc
    rw [show (some d).or x.getLast? = some d from rfl] at h2
    obtain rfl := Option.some.inj h2
    exact hd
  | cons t0 ts =>
    rw [List.getLast?_cons_cons] at hc
    cases hgl : (t0 :: ts).getLast? with
    | none =>
      rw [List.getLast?_eq_none_iff] at hgl
      exact List.noConfusion hgl
    | some c0 =>
      rw [hgl] at hc
      rw [show (some c0).or x.getLast? = some c0 from rfl] at hc
      obtain rfl := Option.some.inj hc
      exact ht _ hgl

theorem head?_append_left {α : Type} (x y : List α) (hx : x ≠ []) :
    (x ++ y).head? = x.head? := by
  cases x with
  | nil => exact absurd rfl hx
  | cons c t => rfl

theorem jsJoinS_five (sep : Char) (f1 f2 f3 f4 f5 : String) :
    (jsJoinS sep [f1, f2, f3, f4, f5]).data =
      f1.data ++ sep :: (f2.data ++ sep :: (f3.data ++ sep :: (f4.data ++ sep :: f5.data))) := rfl

theorem row_lastNonWs (sep : Char) (hsep : jsWhitespaceChar sep = false)
    (f1 f2 f3 f4 f5 : String)
    (h2 : jsTrim f2 = f2) (h3 : jsTrim f3 = f3) (h4 : jsTrim f4 = f4) (h5 : jsTrim f5 = f5) :
    ∀ c, (jsJoinS sep [f1, f2, f3, f4, f5]).data.getLast? = some c →
      jsWhitespaceChar c = false := by
  rw [jsJoinS_five]
  exact lastNonWs_append_cons _ sep hsep _
    (lastNonWs_append_cons _ sep hsep _
      (lastNonWs_append_cons _ sep hsep _
        (lastNonWs_append_cons _ sep hsep _ (getLast_not_ws_of_trimmed h5))))

theorem row_head (sep : Char) (f1 f2 f3 f4 f5 : String) (h1ne : f1 ≠ "") :
    (jsJoinS sep [f1, f2, f3, f4, f5]).data.head? = f1.data.head? := by
  rw [jsJoinS_five]
  exact head?_append_left _ _ (fun h => h1ne ((data_eq_nil_iff f1).mp h))

theorem jsTrim_row (sep : Char) (hsep : jsWhitespaceChar sep = false)
    (f1 f2 f3 f4 f5 : String) (h1 : jsTrim f1 = f1) (h1ne : f1 ≠ "")
    (h2 : jsTrim f2 = f2) (h3 : jsTrim f3 = f3) (h4 : jsTrim f4 = f4) (h5 : jsTrim f5 = f5) :
    jsTrim (jsJoinS sep [f1, f2, f3, f4, f5]) = jsJoinS sep [f1, f2, f3, f4, f5] := by
  have hhead : ∀ c, (jsJoinS sep [f1, f2, f3, f4, f5]).data.head? = some c →
      jsWhitespaceChar c = false := by
    intro c hc
    rw [row_head sep f1 f2 f3 f4 f5 h1ne] at hc
    exact head_not_ws_of_trimmed h1 c hc
  calc jsTrim (jsJoinS sep [f1, f2, f3, f4, f5])
      = ⟨(jsJoinS sep [f1, f2, f3, f4, f5]).data⟩ := by
        show (⟨jsTrimChars (jsJoinS sep [f1, f2, f3, f4, f5]).data⟩ : String) = _
        rw [jsTrimChars_eq_self _ hhead (row_lastNonWs sep hsep f1 f2 f3 f4 f5 h2 h3 h4 h5)]
    _ = jsJoinS sep [f1, f2, f3, f4, f5] := mk_data _

theorem keepDataLine_row (sep : Char) (hsep : jsWhitespaceChar sep = false)
    (f1 f2 f3 f4 f5 : String) (h1 : jsTrim f1 = f1) (h1ne : f1 ≠ "")
    (h1hash : headIsHash f1 = false)
    (h2 : jsTrim f2 = f2) (h3 : jsTrim f3 = f3) (h4 : jsTrim f4 = f4) (h5 : jsTrim f5 = f5) :
    keepDataLine (jsJoinS sep [f1, f2, f3, f4, f5]) = true := by
  unfold keepDataLine
  rw [jsTrim_row sep hsep f1 f2 f3 f4 f5 h1 h1ne h2 h3 h4 h5]
  have hhash : headIsHash (jsJoinS sep [f1, f2, f3, f4, f5]) = false := by
    unfold headIsHash
    rw [row_head sep f1 f2 f3 f4 f5 h1ne]
    unfold headIsHash at h1hash
    exact h1hash
  have hne : jsJoinS sep [f1, f2, f3, f4, f5] ≠ "" := by
    intro h
    have hd := (data_eq_nil_iff _).mpr h
    rw [jsJoinS_five] at hd
    rcases List.append_eq_nil.mp hd with ⟨_, h2nil⟩
    exact List.noConfusion h2nil
  simp [hhash, hne]

/-! ### C8: field safety extraction -/

theorem csvSafeStr_trim {s : String} (h : csvSafeStr s = true) : jsTrim s = s := by
  unfold csvSafeStr at h
  rw [Bool.and_eq_true] at h
  exact eq_of_beq h.1

theorem tsvSafeStr_trim {s : String} (h : tsvSafeStr s = true) : jsTrim s = s := by
  unfold tsvSafeStr at h
  rw [Bool.and_eq_true] at h
  exact eq_of_beq h.1

theorem fieldHasNone_not_mem {s : String} {bad : List Char}
    (h : fieldHasNone s bad = true) : ∀ c ∈ s.data, c ∉ bad := by
  intro c hc hbad
  unfold fieldHasNone at h
  have h2 : s.data.any (fun c => bad.contains c) = true :=
    List.any_eq_true.mpr ⟨c, hc, by simpa using hbad⟩
  rw [h2] at h
  simp at h

theorem csvSafeStr_no_char {s : String} (h : csvSafeStr s = true) :
    ∀ c ∈ s.data, c ≠ '\n' := by
  unfold csvSafeStr at h
  rw [Bool.and_eq_true] at h
  intro c hc
  have h2 := fieldHasNone_not_mem h.2 c hc
  simp at h2
  exact h2

theorem tsvSafeStr_no_char {s : String} (h : tsvSafeStr s = true) :
    ∀ c ∈ s.data, c ≠ '\t' ∧ c ≠ '\n' := by
  unfold tsvSafeStr at h
  rw [Bool.and_eq_true] at h
  intro c hc
  have h2 := fieldHasNone_not_mem h.2 c hc
  simp at h2
  exact h2

theorem mem_doubleQuotesChars (c : Char) : ∀ (l : List Char),
    c ∈ doubleQuotesChars l → c ∈ l ∨ c = '"' := by
  intro l
  induction l with
  | nil => intro h; exact absurd h (List.not_mem_nil c)
  | cons a as ih =>
    intro h
    unfold doubleQuotesChars at h
    by_cases ha : a = '"'
    · rw [if_pos ha] at h
      rcases List.mem_cons.mp h with hc | h2
      · exact Or.inr hc
      · rcases List.mem_cons.mp h2 with hc | h3
        · exact Or.inr hc
        · rcases ih h3 with hm | hq
          · exact Or.inl (List.mem_cons_of_mem _ hm)
          · exact Or.inr hq
    · rw [if_neg ha] at h
      rcases List.mem_cons.mp h with hc | h2
      · exact Or.inl (hc ▸ List.mem_cons_self _ _)
      · rcases ih h2 with hm | hq
        · exact Or.inl (List.mem_cons_of_mem _ hm)
        · exact Or.inr hq

theorem mem_escapeCSV {c : Char} {f : String} (h : c ∈ (escapeCSV f).data) :
    c ∈ f.data ∨ c = '"' := by
  unfold escapeCSV at h
  split at h
  · exact absurd h (List.not_mem_nil c)
  · split at h
    · have h2 : c ∈ ('"' :: (doubleQuotesChars f.data ++ ['"'])) := h
      rcases List.mem_cons.mp h2 with hc | h3
      · exact Or.inr hc
      · rcases List.mem_append.mp h3 with h4 | h4
        · exact mem_doubleQuotesChars c f.data h4
        · exact Or.inr (List.mem_singleton.mp h4)
    · exact Or.inl h

theorem escapeCSV_head (f : String) (hne : f ≠ "") :
    (escapeCSV f).data.head? = f.data.head? ∨ (escapeCSV f).data.head? = some '"' := by
  unfold escapeCSV
  rw [if_neg hne]
  split
  · exact Or.inr rfl
  · exact Or.inl rfl

theorem escapeCSV_ne_empty (f : String) (hne : f ≠ "") : escapeCSV f ≠ "" := by
  unfold escapeCSV
  rw [if_neg hne]
  split
  · intro h
    have h2 : ('"' :: (doubleQuotesChars f.data ++ ['"']) : List Char) = [] :=
      congrArg String.data h
    exact List.noConfusion h2
  · exact hne

theorem parseCSVLineAux_open_quote (cur : List Char) (zs : List Char) :
    parseCSVLineAux false cur ('"' :: zs) = parseCSVLineAux true cur zs := by
  rcases zs with _ | ⟨z, zs2⟩
  · rfl
  · by_cases hz : z = '"'
    · subst hz
      rfl
    · simp [parseCSVLineAux, hz]

theorem parseCSVLineAux_quoted (cs : List Char) :
    ∀ (cur rest : List Char), rest.head? ≠ some '"' →
      parseCSVLineAux true cur (doubleQuotesChars cs ++ '"' :: rest) =
        parseCSVLineAux false (cs.reverse ++ cur) rest := by
  induction cs with
  | nil =>
    intro cur rest hrest
    rcases rest with _ | ⟨r, rest2⟩
    · rfl
    · have hr : r ≠ '"' := by
        intro h
        rw [h] at hrest
        exact hrest rfl
      show parseCSVLineAux true cur ('"' :: r :: rest2) = _
      simp [parseCSVLineAux, hr]
  | cons c cs2 ih =>
    intro cur rest hrest
    by_cases hc : c = '"'
    · subst hc
      show parseCSVLineAux true cur
          ('"' :: '"' :: (doubleQuotesChars cs2 ++ '"' :: rest)) = _
      rw [show parseCSVLineAux true cur
            ('"' :: '"' :: (doubleQuotesChars cs2 ++ '"' :: rest)) =
          parseCSVLineAux true ('"' :: cur)
            (doubleQuotesChars cs2 ++ '"' :: rest) from rfl]
      rw [ih ('"' :: cur) rest hrest]
      simp
    · rw [show doubleQuotesChars (c :: cs2) = c :: doubleQuotesChars cs2 from by
        simp [doubleQuotesChars, hc]]
      rw [List.cons_append]
      rw [parseCSVLineAux_cons_plain true cur _ c hc (by simp)]
      rw [ih (c :: cur) rest hrest]
      simp

theorem parseCSVLineAux_scan_plain (cs : List Char) :
    ∀ (cur rest : List Char), (∀ c ∈ cs, c ≠ '"' ∧ c ≠ ',') →
      parseCSVLineAux false cur (cs ++ rest) =
        parseCSVLineAux false (cs.reverse ++ cur) rest := by
  induction cs with
  | nil => intro cur rest _; simp
  | cons c cs2 ih =>
    intro cur rest h
    have hc := h c (List.mem_cons_self _ _)
    rw [show (c :: cs2) ++ rest = c :: (cs2 ++ rest) from rfl]
    rw [parseCSVLineAux_cons_plain false cur _ c hc.1 (by simp [hc.2])]
    rw [ih (c :: cur) rest (fun x hx => h x (List.mem_cons_of_mem _ hx))]
    simp

theorem parseCSVLineAux_esc (f : String) (cur rest : List Char)
    (hrest : rest.head? ≠ some '"') :
    parseCSVLineAux false cur ((escapeCSV f).data ++ rest) =
      parseCSVLineAux false (f.data.reverse ++ cur) rest := by
  unfold escapeCSV
  by_cases hf : f = ""
  · rw [if_pos hf, hf]
    rfl
  · rw [if_neg hf]
    split
    · show parseCSVLineAux false cur
        ('"' :: ((doubleQuotesChars f.data ++ ['"']) ++ rest)) = _
      rw [show (doubleQuotesChars f.data ++ ['"']) ++ rest =
          doubleQuotesChars f.data ++ '"' :: rest from by simp]
      rw [parseCSVLineAux_open_quote]
      exact parseCSVLineAux_quoted f.data cur rest hrest
    · rename_i hcond
      apply parseCSVLineAux_scan_plain
      intro c hcmem
      simp only [Bool.or_eq_true, not_or] at hcond
      constructor
      · intro hq
        exact hcond.1.1.2 (List.contains_iff_exists_mem_beq.mpr ⟨c, hcmem, by simp [hq]⟩)
      · intro hq
        exact hcond.1.1.1 (List.contains_iff_exists_mem_beq.mpr ⟨c, hcmem, by simp [hq]⟩)

theorem parseCSVLineAux_join_escape :
    ∀ (fields : List String) (f : String),
      parseCSVLineAux false []
          (joinSepChars ',' ((f :: fields).map (fun x => (escapeCSV x).data))) =
        (f :: fields).map String.data := by
  intro fields
  induction fields with
  | nil =>
    intro f
    show parseCSVLineAux false [] ((escapeCSV f).data) = [f.data]
    have h := parseCSVLineAux_esc f [] [] (by rw [List.head?_nil]; intro h; exact Option.noConfusion h)
    rw [List.append_nil, List.append_nil] at h
    rw [h]
    simp [parseCSVLineAux]
  | cons f2 fs ih =>
    intro f
    show parseCSVLineAux false []
        ((escapeCSV f).data ++
          ',' :: joinSepChars ',' ((f2 :: fs).map (fun x => (escapeCSV x).data))) =
      f.data :: (f2 :: fs).map String.data
    rw [parseCSVLineAux_esc f [] _ (by rw [List.head?_cons]; intro h; exact absurd (Option.some.inj h) (by decide))]
    rw [List.append_nil]
    rw [parseCSVLineAux_cons_comma]
    rw [List.reverse_reverse]
    rw [ih f2]

theorem parseCSVLine_escape (fields : List String) (hne : fields ≠ []) :
    parseCSVLine (jsJoinS ',' (fields.map escapeCSV)) = fields := by
  cases fields with
  | nil => exact absurd rfl hne
  | cons f fs =>
    unfold parseCSVLine jsJoinS
    rw [show (⟨joinSepChars ',' (((f :: fs).map escapeCSV).map String.data)⟩ : String).data
        = joinSepChars ',' (((f :: fs).map escapeCSV).map String.data) from rfl]
    rw [List.map_map]
    rw [show ((String.data ∘ escapeCSV) : String → List Char) =
        (fun x => (escapeCSV x).data) from rfl]
    rw [parseCSVLineAux_join_escape fs f]
    show List.map (fun l => (⟨l⟩ : String)) (List.map String.data (f :: fs)) = f :: fs
    rw [List.map_map]
    have hid : ((fun l => (⟨l⟩ : String)) ∘ String.data) = id := by
      funext s
      exact mk_data s
    rw [hid, List.map_id]

/-! ### C8: the grouping fold reconstructs the entry blocks -/

theorem mapPushGrapheme_absent (key g : String) (fresh : LexiconEntry) :
    ∀ (acc : List (String × LexiconEntry)), (∀ q ∈ acc, q.1 ≠ key) →
      mapPushGrapheme acc key g fresh = acc ++ [(key, { fresh with graphemes := [g] })] := by
  intro acc
  induction acc with
  | nil => intro _; rfl
  | cons q rest ih =>
    intro h
    obtain ⟨k, e⟩ := q
    have hk : k ≠ key := h (k, e) (List.mem_cons_self _ _)
    show mapPushGrapheme ((k, e) :: rest) key g fresh = _
    unfold mapPushGrapheme
    rw [if_neg hk, ih (fun q hq => h q (List.mem_cons_of_mem _ hq))]
    rfl

theorem mapPushGrapheme_found (key g : String) (fresh e0 : LexiconEntry) :
    ∀ (acc : List (String × LexiconEntry)), (∀ q ∈ acc, q.1 ≠ key) →
      mapPushGrapheme (acc ++ [(key, e0)]) key g fresh =
        acc ++ [(key, { e0 with graphemes := e0.graphemes ++ [g] })] := by
  intro acc
  induction acc with
  | nil =>
    intro _
    show mapPushGrapheme [(key, e0)] key g fresh = _
    unfold mapPushGrapheme
    rw [if_pos rfl]
    rfl
  | cons q rest ih =>
    intro h
    obtain ⟨k, e⟩ := q
    have hk : k ≠ key := h (k, e) (List.mem_cons_self _ _)
    show mapPushGrapheme ((k, e) :: (rest ++ [(key, e0)])) key g fresh = _
    unfold mapPushGrapheme
    rw [if_neg hk, ih (fun q hq => h q (List.mem_cons_of_mem _ hq))]
    rfl

theorem rowStep_cols (acc : List (String × LexiconEntry)) (g a asv p ps : String)
    (hg : jsTrim g = g) (hgne : g ≠ "") (ha : jsTrim a = a) (hasv : jsTrim asv = asv)
    (hp : jsTrim p = p) (hps : jsTrim ps = ps) :
    rowStep 0 1 2 3 4 acc [g, a, asv, p, ps] =
      mapPushGrapheme acc (a ++ "|" ++ asv ++ "|" ++ p ++ "|" ++ ps) g
        { graphemes := [], «alias» := optField a, aliasSayAsType := optField asv
        , phoneme := optField p, phonemeSayAsType := optField ps, isNew := false } := by
  simp only [rowStep, List.getD_cons_zero, List.getD_cons_succ, hg, ha, hasv, hp, hps]
  rw [if_neg hgne]

theorem fold_graphemes_aux (splitLine : String → List String) (rowFor : String → String)
    (a asv p ps : String) (ha : jsTrim a = a) (hasv : jsTrim asv = asv)
    (hp : jsTrim p = p) (hps : jsTrim ps = ps) :
    ∀ (gs : List String),
      (∀ g ∈ gs, splitLine (rowFor g) = [g, a, asv, p, ps]) →
      (∀ g ∈ gs, jsTrim g = g ∧ g ≠ "") →
      ∀ (acc : List (String × LexiconEntry)) (e0 : LexiconEntry),
        (∀ q ∈ acc, q.1 ≠ a ++ "|" ++ asv ++ "|" ++ p ++ "|" ++ ps) →
        (gs.map rowFor).foldl (fun acc2 line => rowStep 0 1 2 3 4 acc2 (splitLine line))
            (acc ++ [(a ++ "|" ++ asv ++ "|" ++ p ++ "|" ++ ps, e0)]) =
          acc ++ [(a ++ "|" ++ asv ++ "|" ++ p ++ "|" ++ ps,
                   { e0 with graphemes := e0.graphemes ++ gs })] := by
  intro gs
  induction gs with
  | nil =>
    intro _ _ acc e0 _
    simp only [List.map_nil, List.foldl_nil, List.append_nil]
  | cons g gs2 ih =>
    intro hsplit hgs acc e0 hacc
    simp only [List.map_cons, List.foldl_cons]
    rw [hsplit g (List.mem_cons_self _ _)]
    rw [rowStep_cols _ g a asv p ps (hgs g (List.mem_cons_self _ _)).1
        (hgs g (List.mem_cons_self _ _)).2 ha hasv hp hps]
    rw [mapPushGrapheme_found _ _ _ _ acc hacc]
    rw [ih (fun x hx => hsplit x (List.mem_cons_of_mem _ hx))
        (fun x hx => hgs x (List.mem_cons_of_mem _ hx)) acc
        { e0 with graphemes := e0.graphemes ++ [g] } hacc]
    simp [List.append_assoc]

theorem fold_entry (splitLine : String → List String) (rowFor : String → String)
    (a asv p ps : String) (ha : jsTrim a = a) (hasv : jsTrim asv = asv)
    (hp : jsTrim p = p) (hps : jsTrim ps = ps)
    (gs : List String) (hne : gs ≠ [])
    (hsplit : ∀ g ∈ gs, splitLine (rowFor g) = [g, a, asv, p, ps])
    (hgs : ∀ g ∈ gs, jsTrim g = g ∧ g ≠ "")
    (acc : List (String × LexiconEntry))
    (hacc : ∀ q ∈ acc, q.1 ≠ a ++ "|" ++ asv ++ "|" ++ p ++ "|" ++ ps) :
    (gs.map rowFor).foldl (fun acc2 line => rowStep 0 1 2 3 4 acc2 (splitLine line)) acc =
      acc ++ [(a ++ "|" ++ asv ++ "|" ++ p ++ "|" ++ ps,
               { graphemes := gs, «alias» := optField a, aliasSayAsType := optField asv
               , phoneme := optField p, phonemeSayAsType := optField ps, isNew := false })] := by
  cases gs with
  | nil => exact absurd rfl hne
  | cons g gs2 =>
    simp only [List.map_cons, List.foldl_cons]
    rw [hsplit g (List.mem_cons_self _ _)]
    rw [rowStep_cols _ g a asv p ps (hgs g (List.mem_cons_self _ _)).1
        (hgs g (List.mem_cons_self _ _)).2 ha hasv hp hps]
    rw [mapPushGrapheme_absent _ _ _ acc hacc]
    rw [fold_graphemes_aux splitLine rowFor a asv p ps ha hasv hp hps gs2
        (fun x hx => hsplit x (List.mem_cons_of_mem _ hx))
        (fun x hx => hgs x (List.mem_cons_of_mem _ hx)) acc _ hacc]
    rfl

theorem fold_entries (splitLine : String → List String)
    (rowOf : LexiconEntry → String → String) :
    ∀ (entries : List LexiconEntry) (acc : List (String × LexiconEntry)),
      (∀ e ∈ entries, ∀ g ∈ e.graphemes, splitLine (rowOf e g) =
        [g, normField e.«alias», normField e.aliasSayAsType,
         normField e.phoneme, normField e.phonemeSayAsType]) →
      (∀ e ∈ entries,
        jsTrim (normField e.«alias») = normField e.«alias» ∧
        jsTrim (normField e.aliasSayAsType) = normField e.aliasSayAsType ∧
        jsTrim (normField e.phoneme) = normField e.phoneme ∧
        jsTrim (normField e.phonemeSayAsType) = normField e.phonemeSayAsType) →
      (∀ e ∈ entries, e.graphemes ≠ [] ∧ ∀ g ∈ e.graphemes, jsTrim g = g ∧ g ≠ "") →
      keysDistinct entries →
      (∀ e ∈ entries, ∀ q ∈ acc, q.1 ≠ keyOf e) →
      (listFlat (entries.map (fun e => e.graphemes.map (rowOf e)))).foldl
          (fun acc2 line => rowStep 0 1 2 3 4 acc2 (splitLine line)) acc =
        acc ++ entries.map (fun e => (keyOf e, csvNormEntry e)) := by
  intro entries
  induction entries with
  | nil => intro acc _ _ _ _ _; simp [listFlat]
  | cons e rest ih =>
    intro acc hsplit hfields hgs hkeys hacc
    have hkey : ∀ e2 ∈ rest, keyOf e ≠ keyOf e2 := (List.pairwise_cons.mp hkeys).1
    simp only [List.map_cons, listFlat, List.foldl_append]
    have hf := hfields e (List.mem_cons_self _ _)
    rw [fold_entry splitLine (rowOf e)
        (normField e.«alias») (normField e.aliasSayAsType)
        (normField e.phoneme) (normField e.phonemeSayAsType)
        hf.1 hf.2.1 hf.2.2.1 hf.2.2.2
        e.graphemes (hgs e (List.mem_cons_self _ _)).1
        (hsplit e (List.mem_cons_self _ _))
        (hgs e (List.mem_cons_self _ _)).2 acc
        (hacc e (List.mem_cons_self _ _))]
    rw [show (normField e.«alias» ++ "|" ++ normField e.aliasSayAsType ++ "|" ++
          normField e.phoneme ++ "|" ++ normField e.phonemeSayAsType,
          ({ graphemes := e.graphemes, «alias» := optField (normField e.«alias»)
           , aliasSayAsType := optField (normField e.aliasSayAsType)
           , phoneme := optField (normField e.phoneme)
           , phonemeSayAsType := optField (normField e.phonemeSayAsType)
           , isNew := false } : LexiconEntry)) = (keyOf e, csvNormEntry e) from rfl]
    rw [ih (acc ++ [(keyOf e, csvNormEntry e)])
        (fun x hx => hsplit x (List.mem_cons_of_mem _ hx))
        (fun x hx => hfields x (List.mem_cons_of_mem _ hx))
        (fun x hx => hgs x (List.mem_cons_of_mem _ hx))
        (List.pairwise_cons.mp hkeys).2 ?_]
    · simp
    · intro e2 he2 q hq
      rcases List.mem_append.mp hq with hq | hq
      · exact hacc e2 (List.mem_cons_of_mem _ he2) q hq
      · simp only [List.mem_singleton] at hq
        rw [hq]
        exact hkey e2 he2

/-! ### C8: per-codec row facts -/

theorem stripBOM_of_head (s : String) (h : ∀ rest, s.data ≠ '﻿' :: rest) :
    stripBOM s = s := by
  unfold stripBOM
  split
  · rename_i rest heq
    exact absurd heq (h rest)
  · rfl

theorem csvSafeEntry_parts {e : LexiconEntry} (h : csvSafeEntry e = true) :
    e.graphemes ≠ [] ∧
    (∀ g ∈ e.graphemes, g ≠ "" ∧ headIsHash g = false ∧ csvSafeStr g = true) ∧
    csvSafeStr (normField e.«alias») = true ∧
    csvSafeStr (normField e.aliasSayAsType) = true ∧
    csvSafeStr (normField e.phoneme) = true ∧
    csvSafeStr (normField e.phonemeSayAsType) = true := by
  unfold csvSafeEntry at h
  simp only [Bool.and_eq_true] at h
  obtain ⟨⟨⟨⟨⟨hne, hgs⟩, ha⟩, hasv⟩, hp⟩, hps⟩ := h
  refine ⟨?_, ?_, ha, hasv, hp, hps⟩
  · intro hnil
    rw [hnil] at hne
    simp at hne
  · intro g hg
    rw [List.all_eq_true] at hgs
    have h2 := hgs g hg
    simp only [Bool.and_eq_true, decide_eq_true_eq] at h2
    refine ⟨h2.1.1, ?_, h2.2⟩
    have h3 := h2.1.2
    simpa using h3

theorem tsvSafeEntry_parts {e : LexiconEntry} (h : tsvSafeEntry e = true) :
    e.graphemes ≠ [] ∧
    (∀ g ∈ e.graphemes, g ≠ "" ∧ headIsHash g = false ∧ tsvSafeStr g = true) ∧
    tsvSafeStr (normField e.«alias») = true ∧
    tsvSafeStr (normField e.aliasSayAsType) = true ∧
    tsvSafeStr (normField e.phoneme) = true ∧
    tsvSafeStr (normField e.phonemeSayAsType) = true := by
  unfold tsvSafeEntry at h
  simp only [Bool.and_eq_true] at h
  obtain ⟨⟨⟨⟨⟨hne, hgs⟩, ha⟩, hasv⟩, hp⟩, hps⟩ := h
  refine ⟨?_, ?_, ha, hasv, hp, hps⟩
  · intro hnil
    rw [hnil] at hne
    simp at hne
  · intro g hg
    rw [List.all_eq_true] at hgs
    have h2 := hgs g hg
    simp only [Bool.and_eq_true, decide_eq_true_eq] at h2
    refine ⟨h2.1.1, ?_, h2.2⟩
    have h3 := h2.1.2
    simpa using h3

theorem fields_no_char (sep : Char) (fields : List String) (bad : Char) (hsep : sep ≠ bad)
    (hf : ∀ f ∈ fields, ∀ c ∈ f.data, c ≠ bad) :
    ∀ c ∈ (jsJoinS sep fields).data, c ≠ bad := by
  intro c hc
  rcases mem_joinSepChars sep (fields.map String.data) c hc with h | ⟨l, hl, hcl⟩
  · rw [h]
    exact hsep
  · obtain ⟨f, hfm, hfd⟩ := List.mem_map.mp hl
    rw [← hfd] at hcl
    exact hf f hfm c hcl

theorem parseCSVLine_entryRow (e : LexiconEntry) (g : String) :
    parseCSVLine (entryCSVRow e g) =
      [g, normField e.«alias», normField e.aliasSayAsType, normField e.phoneme,
       normField e.phonemeSayAsType] := by
  show parseCSVLine (jsJoinS ','
      ([g, normField e.«alias», normField e.aliasSayAsType, normField e.phoneme,
        normField e.phonemeSayAsType].map escapeCSV)) = _
  exact parseCSVLine_escape _ (by simp)

theorem dropWhile_append_singleton_ne_nil {p : Char → Bool} (c : Char) (hc : p c = false) :
    ∀ (x : List Char), List.dropWhile p (x ++ [c]) ≠ [] := by
  intro x
  induction x with
  | nil =>
    simp [List.dropWhile, hc]
  | cons a as ih =>
    rw [List.cons_append, List.dropWhile_cons]
    by_cases ha : p a = true
    · rw [if_pos ha]
      exact ih
    · rw [if_neg ha]
      exact List.cons_ne_nil a (as ++ [c])

theorem keepDataLine_of_head (line : String) (c0 : Char) (hh : line.data.head? = some c0)
    (hc0ws : jsWhitespaceChar c0 = false) (hc0hash : c0 ≠ '#') :
    keepDataLine line = true := by
  obtain ⟨rest, hrest⟩ : ∃ rest, line.data = c0 :: rest := by
    cases hld : line.data with
    | nil => rw [hld] at hh; exact Option.noConfusion hh
    | cons a t =>
      rw [hld] at hh
      simp only [List.head?_cons, Option.some.injEq] at hh
      exact ⟨t, by rw [hh]⟩
  have hdrop : List.dropWhile jsWhitespaceChar line.data = line.data := by
    apply dropWhile_eq_self_of_head
    intro c hc
    rw [hh] at hc
    obtain rfl := Option.some.inj hc
    exact hc0ws
  have htrim : jsTrimChars line.data =
      (List.dropWhile jsWhitespaceChar line.data.reverse).reverse := by
    unfold jsTrimChars
    rw [hdrop]
  have htne : jsTrimChars line.data ≠ [] := by
    rw [htrim]
    intro hnil
    have h2 : List.dropWhile jsWhitespaceChar line.data.reverse = [] := by
      have := congrArg List.reverse hnil
      simpa using this
    have h3 : line.data.reverse = rest.reverse ++ [c0] := by
      rw [hrest]
      simp
    rw [h3] at h2
    exact dropWhile_append_singleton_ne_nil c0 hc0ws rest.reverse h2
  have hpre : ∃ t, jsTrimChars line.data ++ t = line.data := by
    obtain ⟨t, ht⟩ :=
      List.dropWhile_suffix (l := line.data.reverse) jsWhitespaceChar
    refine ⟨t.reverse, ?_⟩
    rw [htrim]
    have := congrArg List.reverse ht
    simpa [List.reverse_append] using this
  have hheadtrim : (jsTrimChars line.data).head? = some c0 := by
    obtain ⟨t, ht⟩ := hpre
    have h4 := head?_append_left (jsTrimChars line.data) t htne
    rw [ht] at h4
    rw [← h4]
    exact hh
  unfold keepDataLine
  have h1 : headIsHash (jsTrim line) = false := by
    unfold headIsHash
    show decide ((jsTrimChars line.data).head? = some '#') = false
    rw [hheadtrim]
    simp [hc0hash]
  have h2 : jsTrim line ≠ "" := by
    intro hq
    exact htne ((data_eq_nil_iff (jsTrim line)).mpr hq)
  simp only [h1, Bool.not_false, Bool.true_and]
  simpa using h2

theorem row_head_char {g : String} (sep : Char)
    (hgtrim : jsTrim g = g) (hgne : g ≠ "") (hghash : headIsHash g = false)
    (f2 f3 f4 f5 : String) :
    ∃ c0, (jsJoinS sep [g, f2, f3, f4, f5]).data.head? = some c0 ∧
      jsWhitespaceChar c0 = false ∧ c0 ≠ '#' := by
  obtain ⟨c0, rest, hg0⟩ : ∃ c0 rest, g.data = c0 :: rest := by
    cases hgd : g.data with
    | nil => exact absurd ((data_eq_nil_iff g).mp hgd) hgne
    | cons a t => exact ⟨a, t, rfl⟩
  refine ⟨c0, ?_, ?_, ?_⟩
  · rw [row_head sep g f2 f3 f4 f5 hgne, hg0]
    rfl
  · exact head_not_ws_of_trimmed hgtrim c0 (by rw [hg0]; rfl)
  · intro hq
    unfold headIsHash at hghash
    rw [hg0, hq] at hghash
    simp at hghash

theorem entryCSVRow_keep {e : LexiconEntry} (hsafe : csvSafeEntry e = true)
    {g : String} (hg : g ∈ e.graphemes) :
    keepDataLine (entryCSVRow e g) = true := by
  obtain ⟨_, hgs, _, _, _, _⟩ := csvSafeEntry_parts hsafe
  obtain ⟨hgne, hghash, hgsafe⟩ := hgs g hg
  have hescne : escapeCSV g ≠ "" := escapeCSV_ne_empty g hgne
  have hrowhead : (entryCSVRow e g).data.head? = (escapeCSV g).data.head? :=
    row_head ',' (escapeCSV g) (escapeCSV (normField e.«alias»))
      (escapeCSV (normField e.aliasSayAsType)) (escapeCSV (normField e.phoneme))
      (escapeCSV (normField e.phonemeSayAsType)) hescne
  rcases escapeCSV_head g hgne with hh | hh
  · obtain ⟨c0, rest0, hg0⟩ : ∃ c0 rest0, g.data = c0 :: rest0 := by
      cases hgd : g.data with
      | nil => exact absurd ((data_eq_nil_iff g).mp hgd) hgne
      | cons a t => exact ⟨a, t, rfl⟩
    apply keepDataLine_of_head _ c0
    · rw [hrowhead, hh, hg0]
      rfl
    · exact head_not_ws_of_trimmed (csvSafeStr_trim hgsafe) c0 (by rw [hg0]; rfl)
    · intro hq
      unfold headIsHash at hghash
      rw [hg0, hq] at hghash
      simp at hghash
  · apply keepDataLine_of_head _ '"'
    · rw [hrowhead, hh]
    · decide
    · decide

theorem entryCSVRow_no_newline {e : LexiconEntry} (hsafe : csvSafeEntry e = true)
    {g : String} (hg : g ∈ e.graphemes) :
    ∀ c ∈ (entryCSVRow e g).data, c ≠ '\n' := by
  obtain ⟨_, hgs, ha, hasv, hp, hps⟩ := csvSafeEntry_parts hsafe
  show ∀ c ∈ (jsJoinS ',' [escapeCSV g, escapeCSV (normField e.«alias»),
      escapeCSV (normField e.aliasSayAsType), escapeCSV (normField e.phoneme),
      escapeCSV (normField e.phonemeSayAsType)]).data, c ≠ '\n'
  apply fields_no_char ',' _ '\n' (by decide)
  intro f hf c hc
  have key : ∀ (s : String), csvSafeStr s = true → c ∈ (escapeCSV s).data → c ≠ '\n' := by
    intro s hs hcs
    rcases mem_escapeCSV hcs with hm | hq
    · exact csvSafeStr_no_char hs c hm
    · rw [hq]
      decide
  have hmem : f = escapeCSV g ∨ f = escapeCSV (normField e.«alias») ∨
      f = escapeCSV (normField e.aliasSayAsType) ∨ f = escapeCSV (normField e.phoneme) ∨
      f = escapeCSV (normField e.phonemeSayAsType) := by
    simpa using hf
  rcases hmem with h | h | h | h | h <;> rw [h] at hc
  · exact key g (hgs g hg).2.2 hc
  · exact key _ ha hc
  · exact key _ hasv hc
  · exact key _ hp hc
  · exact key _ hps hc

theorem entryTSVRow_eq (e : LexiconEntry) (g : String) :
    entryTSVRow e g = jsJoinS '\t' [g, normField e.«alias», normField e.aliasSayAsType,
      normField e.phoneme, normField e.phonemeSayAsType] := rfl

theorem jsSplitTab_entryRow {e : LexiconEntry} (hsafe : tsvSafeEntry e = true)
    {g : String} (hg : g ∈ e.graphemes) :
    jsSplit '\t' (entryTSVRow e g) =
      [g, normField e.«alias», normField e.aliasSayAsType, normField e.phoneme,
       normField e.phonemeSayAsType] := by
  obtain ⟨_, hgs, ha, hasv, hp, hps⟩ := tsvSafeEntry_parts hsafe
  rw [entryTSVRow_eq]
  apply jsSplit_jsJoinS
  · simp
  · intro f hf c hc
    have hmem : f = g ∨ f = normField e.«alias» ∨ f = normField e.aliasSayAsType ∨
        f = normField e.phoneme ∨ f = normField e.phonemeSayAsType := by
      simpa using hf
    rcases hmem with h | h | h | h | h <;> rw [h] at hc
    · exact (tsvSafeStr_no_char (hgs g hg).2.2 c hc).1
    · exact (tsvSafeStr_no_char ha c hc).1
    · exact (tsvSafeStr_no_char hasv c hc).1
    · exact (tsvSafeStr_no_char hp c hc).1
    · exact (tsvSafeStr_no_char hps c hc).1

theorem entryTSVRow_keep {e : LexiconEntry} (hsafe : tsvSafeEntry e = true)
    {g : String} (hg : g ∈ e.graphemes) :
    keepDataLine (entryTSVRow e g) = true := by
  obtain ⟨_, hgs, ha, hasv, hp, hps⟩ := tsvSafeEntry_parts hsafe
  rw [entryTSVRow_eq]
  obtain ⟨c0, hc0, hc0ws, hc0hash⟩ := row_head_char '\t'
    (tsvSafeStr_trim (hgs g hg).2.2) (hgs g hg).1 (hgs g hg).2.1
    (normField e.«alias») (normField e.aliasSayAsType)
    (normField e.phoneme) (normField e.phonemeSayAsType)
  exact keepDataLine_of_head _ c0 hc0 hc0ws hc0hash

theorem entryTSVRow_no_newline {e : LexiconEntry} (hsafe : tsvSafeEntry e = true)
    {g : String} (hg : g ∈ e.graphemes) :
    ∀ c ∈ (entryTSVRow e g).data, c ≠ '\n' := by
  obtain ⟨_, hgs, ha, hasv, hp, hps⟩ := tsvSafeEntry_parts hsafe
  rw [entryTSVRow_eq]
  apply fields_no_char '\t' _ '\n' (by decide)
  intro f hf c hc
  have hmem : f = g ∨ f = normField e.«alias» ∨ f = normField e.aliasSayAsType ∨
      f = normField e.phoneme ∨ f = normField e.phonemeSayAsType := by
    simpa using hf
  rcases hmem with h | h | h | h | h <;> rw [h] at hc
  · exact (tsvSafeStr_no_char (hgs g hg).2.2 c hc).2
  · exact (tsvSafeStr_no_char ha c hc).2
  · exact (tsvSafeStr_no_char hasv c hc).2
  · exact (tsvSafeStr_no_char hp c hc).2
  · exact (tsvSafeStr_no_char hps c hc).2

/-! ### C8: assembling the round trips -/

theorem jsJoinS_head (sep : Char) (f1 : String) (rest : List String) (h1 : f1 ≠ "") :
    (jsJoinS sep (f1 :: rest)).data.head? = f1.data.head? := by
  have h1d : f1.data ≠ [] := fun hnil => h1 ((data_eq_nil_iff f1).mp hnil)
  show (joinSepChars sep (f1.data :: rest.map String.data)).head? = f1.data.head?
  cases hmr : rest.map String.data with
  | nil => rfl
  | cons y ys =>
    show (f1.data ++ sep :: joinSepChars sep (y :: ys)).head? = f1.data.head?
    exact head?_append_left f1.data _ h1d

theorem rows_mem {entries : List LexiconEntry} (rowOf : LexiconEntry → String → String)
    {r : String} (hr : r ∈ listFlat (entries.map (fun e => e.graphemes.map (rowOf e)))) :
    ∃ e, e ∈ entries ∧ ∃ g, g ∈ e.graphemes ∧ r = rowOf e g := by
  obtain ⟨l, hl, hrl⟩ := (mem_listFlat r _).mp hr
  obtain ⟨e, he, hle⟩ := List.mem_map.mp hl
  rw [← hle] at hrl
  obtain ⟨g, hg, hge⟩ := List.mem_map.mp hrl
  exact ⟨e, he, g, hg, hge.symm⟩

theorem rows_ne_nil {entries : List LexiconEntry} (rowOf : LexiconEntry → String → String)
    (hne : entries ≠ []) (hgs : ∀ e ∈ entries, e.graphemes ≠ []) :
    listFlat (entries.map (fun e => e.graphemes.map (rowOf e))) ≠ [] := by
  intro hnil
  cases entries with
  | nil => exact hne rfl
  | cons e rest =>
    have h2 := (listFlat_eq_nil_iff _).mp hnil (e.graphemes.map (rowOf e)) (by simp)
    exact hgs e (List.mem_cons_self _ _) (by simpa using h2)

theorem parseCSV_buildCSV (entries : List LexiconEntry) (hne : entries ≠ [])
    (hsafe : ∀ e ∈ entries, csvSafeEntry e = true) (hkeys : keysDistinct entries) :
    parseCSV (buildCSV entries) = .ok (entries.map csvNormEntry) := by
  have hgne : ∀ e ∈ entries, e.graphemes ≠ [] :=
    fun e he => (csvSafeEntry_parts (hsafe e he)).1
  obtain ⟨r1, rrest, hr⟩ : ∃ r1 rrest,
      listFlat (entries.map (fun e => e.graphemes.map (entryCSVRow e))) = r1 :: rrest := by
    cases hcase : listFlat (entries.map (fun e => e.graphemes.map (entryCSVRow e))) with
    | nil => exact absurd hcase (rows_ne_nil entryCSVRow hne hgne)
    | cons a b => exact ⟨a, b, rfl⟩
  have hbom : stripBOM (buildCSV entries) = buildCSV entries := by
    apply stripBOM_of_head
    intro rest hrest
    have hhead : (buildCSV entries).data.head? = CSV_HEADER.data.head? :=
      jsJoinS_head '\n' CSV_HEADER _ (by decide)
    rw [hrest] at hhead
    simp only [List.head?_cons] at hhead
    exact absurd hhead (by decide)
  have hsplitlines : jsSplit '\n' (buildCSV entries) =
      CSV_HEADER :: listFlat (entries.map (fun e => e.graphemes.map (entryCSVRow e))) := by
    apply jsSplit_jsJoinS
    · simp
    · intro r hrm
      rcases List.mem_cons.mp hrm with hrh | hrt
      · rw [hrh]; decide
      · obtain ⟨e, he, g, hg, hge⟩ := rows_mem entryCSVRow hrt
        rw [hge]
        exact entryCSVRow_no_newline (hsafe e he) hg
  have hfilter : List.filter keepDataLine
      (CSV_HEADER :: listFlat (entries.map (fun e => e.graphemes.map (entryCSVRow e)))) =
      CSV_HEADER :: listFlat (entries.map (fun e => e.graphemes.map (entryCSVRow e))) := by
    rw [List.filter_eq_self]
    intro r hrm
    rcases List.mem_cons.mp hrm with hrh | hrt
    · rw [hrh]; decide
    · obtain ⟨e, he, g, hg, hge⟩ := rows_mem entryCSVRow hrt
      rw [hge]
      exact entryCSVRow_keep (hsafe e he) hg
  unfold parseCSV
  simp only [parseRows]
  rw [hbom, hsplitlines, hfilter, hr]
  simp only []
  rw [show parseCSVLine CSV_HEADER = expectedHeaders from by decide]
  rw [if_pos (by decide)]
  rw [show jsIndexOf expectedHeaders "grapheme" = 0 from by decide,
      show jsIndexOf expectedHeaders "alias" = 1 from by decide,
      show jsIndexOf expectedHeaders "alias_say_as" = 2 from by decide,
      show jsIndexOf expectedHeaders "phoneme" = 3 from by decide,
      show jsIndexOf expectedHeaders "phoneme_say_as" = 4 from by decide]
  rw [← hr]
  rw [fold_entries parseCSVLine entryCSVRow entries []
      (fun e _ g _ => parseCSVLine_entryRow e g)
      (fun e he => by
        obtain ⟨_, _, ha, hasv, hp, hps⟩ := csvSafeEntry_parts (hsafe e he)
        exact ⟨csvSafeStr_trim ha, csvSafeStr_trim hasv, csvSafeStr_trim hp,
          csvSafeStr_trim hps⟩)
      (fun e he => by
        obtain ⟨hne2, hgs2, _, _, _, _⟩ := csvSafeEntry_parts (hsafe e he)
        exact ⟨hne2, fun g hg => ⟨csvSafeStr_trim (hgs2 g hg).2.2, (hgs2 g hg).1⟩⟩)
      hkeys
      (fun e _ q hq => absurd hq (List.not_mem_nil q))]
  simp

theorem parseTSV_buildTSV (entries : List LexiconEntry) (hne : entries ≠ [])
    (hsafe : ∀ e ∈ entries, tsvSafeEntry e = true) (hkeys : keysDistinct entries) :
    parseTSV (buildTSV entries) = .ok (entries.map csvNormEntry) := by
  have hgne : ∀ e ∈ entries, e.graphemes ≠ [] :=
    fun e he => (tsvSafeEntry_parts (hsafe e he)).1
  obtain ⟨r1, rrest, hr⟩ : ∃ r1 rrest,
      listFlat (entries.map (fun e => e.graphemes.map (entryTSVRow e))) = r1 :: rrest := by
    cases hcase : listFlat (entries.map (fun e => e.graphemes.map (entryTSVRow e))) with
    | nil => exact absurd hcase (rows_ne_nil entryTSVRow hne hgne)
    | cons a b => exact ⟨a, b, rfl⟩
  have hbom : stripBOM (buildTSV entries) = buildTSV entries := by
    apply stripBOM_of_head
    intro rest hrest
    have hhead : (buildTSV entries).data.head? = TSV_HEADER.data.head? :=
      jsJoinS_head '\n' TSV_HEADER _ (by decide)
    rw [hrest] at hhead
    simp only [List.head?_cons] at hhead
    exact absurd hhead (by decide)
  have hsplitlines : jsSplit '\n' (buildTSV entries) =
      TSV_HEADER :: listFlat (entries.map (fun e => e.graphemes.map (entryTSVRow e))) := by
    apply jsSplit_jsJoinS
    · simp
    · intro r hrm
      rcases List.mem_cons.mp hrm with hrh | hrt
      · rw [hrh]; decide
      · obtain ⟨e, he, g, hg, hge⟩ := rows_mem entryTSVRow hrt
        rw [hge]
        exact entryTSVRow_no_newline (hsafe e he) hg
  have hfilter : List.filter keepDataLine
      (TSV_HEADER :: listFlat (entries.map (fun e => e.graphemes.map (entryTSVRow e)))) =
      TSV_HEADER :: listFlat (entries.map (fun e => e.graphemes.map (entryTSVRow e))) := by
    rw [List.filter_eq_self]
    intro r hrm
    rcases List.mem_cons.mp hrm with hrh | hrt
    · rw [hrh]; decide
    · obtain ⟨e, he, g, hg, hge⟩ := rows_mem entryTSVRow hrt
      rw [hge]
      exact entryTSVRow_keep (hsafe e he) hg
  unfold parseTSV
  simp only [parseRows]
  rw [hbom, hsplitlines, hfilter, hr]
  simp only []
  rw [show jsSplit '\t' TSV_HEADER = expectedHeaders from by decide]
  rw [if_pos (by decide)]
  rw [show jsIndexOf expectedHeaders "grapheme" = 0 from by decide,
      show jsIndexOf expectedHeaders "alias" = 1 from by decide,
      show jsIndexOf expectedHeaders "alias_say_as" = 2 from by decide,
      show jsIndexOf expectedHeaders "phoneme" = 3 from by decide,
      show jsIndexOf expectedHeaders "phoneme_say_as" = 4 from by decide]
  rw [← hr]
  rw [fold_entries (jsSplit '\t') entryTSVRow entries []
      (fun e he g hg => jsSplitTab_entryRow (hsafe e he) hg)
      (fun e he => by
        obtain ⟨_, _, ha, hasv, hp, hps⟩ := tsvSafeEntry_parts (hsafe e he)
        exact ⟨tsvSafeStr_trim ha, tsvSafeStr_trim hasv, tsvSafeStr_trim hp,
          tsvSafeStr_trim hps⟩)
      (fun e he => by
        obtain ⟨hne2, hgs2, _, _, _, _⟩ := tsvSafeEntry_parts (hsafe e he)
        exact ⟨hne2, fun g hg => ⟨tsvSafeStr_trim (hgs2 g hg).2.2, (hgs2 g hg).1⟩⟩)
      hkeys
      (fun e _ q hq => absurd hq (List.not_mem_nil q))]
  simp

/-! ### C8: the XML round trip at the element-tree level -/

theorem filter_grapheme_leaves (gs : List String) :
    List.filter (fun l => l.tag == "grapheme")
        (gs.map (fun g => (⟨"grapheme", [], g⟩ : XmlLeaf))) =
      gs.map (fun g => (⟨"grapheme", [], g⟩ : XmlLeaf)) := by
  rw [List.filter_eq_self]
  intro l hl
  obtain ⟨g, _, hgl⟩ := List.mem_map.mp hl
  rw [← hgl]
  rfl

theorem filter_grapheme_leaves_ne (gs : List String) (t : String)
    (h : ("grapheme" == t) = false) :
    List.filter (fun l => l.tag == t)
        (gs.map (fun g => (⟨"grapheme", [], g⟩ : XmlLeaf))) = [] := by
  rw [List.filter_eq_nil]
  intro l hl
  obtain ⟨g, _, hgl⟩ := List.mem_map.mp hl
  rw [← hgl]
  show ((⟨"grapheme", [], g⟩ : XmlLeaf).tag == t) ≠ true
  rw [show (⟨"grapheme", [], g⟩ : XmlLeaf).tag = "grapheme" from rfl, h]
  exact Bool.false_ne_true

theorem findLeaves_build_grapheme (e : LexiconEntry) :
    findLeaves (buildLexeme e) "grapheme" =
      e.graphemes.map (fun g => (⟨"grapheme", [], g⟩ : XmlLeaf)) := by
  unfold findLeaves buildLexeme
  rw [List.filter_append, List.filter_append]
  rw [filter_grapheme_leaves e.graphemes]
  have h1 : List.filter (fun l => l.tag == "grapheme")
      (if jsTruthy e.«alias» then
        [(⟨"alias", sayAsAttrs e.aliasSayAsType, e.«alias».getD ""⟩ : XmlLeaf)]
      else []) = [] := by
    split <;> rfl
  have h2 : List.filter (fun l => l.tag == "grapheme")
      (if jsTruthy e.phoneme then
        [(⟨"phoneme", sayAsAttrs e.phonemeSayAsType, e.phoneme.getD ""⟩ : XmlLeaf)]
      else []) = [] := by
    split <;> rfl
  rw [h1, h2]
  simp

theorem findLeaves_build_alias (e : LexiconEntry) :
    findLeaves (buildLexeme e) "alias" =
      (if jsTruthy e.«alias» then
        [(⟨"alias", sayAsAttrs e.aliasSayAsType, e.«alias».getD ""⟩ : XmlLeaf)]
      else []) := by
  unfold findLeaves buildLexeme
  rw [List.filter_append, List.filter_append]
  rw [filter_grapheme_leaves_ne e.graphemes "alias" (by decide)]
  have h1 : List.filter (fun l => l.tag == "alias")
      (if jsTruthy e.«alias» then
        [(⟨"alias", sayAsAttrs e.aliasSayAsType, e.«alias».getD ""⟩ : XmlLeaf)]
      else []) =
      (if jsTruthy e.«alias» then
        [(⟨"alias", sayAsAttrs e.aliasSayAsType, e.«alias».getD ""⟩ : XmlLeaf)]
      else []) := by
    split <;> rfl
  have h2 : List.filter (fun l => l.tag == "alias")
      (if jsTruthy e.phoneme then
        [(⟨"phoneme", sayAsAttrs e.phonemeSayAsType, e.phoneme.getD ""⟩ : XmlLeaf)]
      else []) = [] := by
    split <;> rfl
  rw [h1, h2]
  simp

theorem findLeaves_build_phoneme (e : LexiconEntry) :
    findLeaves (buildLexeme e) "phoneme" =
      (if jsTruthy e.phoneme then
        [(⟨"phoneme", sayAsAttrs e.phonemeSayAsType, e.phoneme.getD ""⟩ : XmlLeaf)]
      else []) := by
  unfold findLeaves buildLexeme
  rw [List.filter_append, List.filter_append]
  rw [filter_grapheme_leaves_ne e.graphemes "phoneme" (by decide)]
  have h1 : List.filter (fun l => l.tag == "phoneme")
      (if jsTruthy e.«alias» then
        [(⟨"alias", sayAsAttrs e.aliasSayAsType, e.«alias».getD ""⟩ : XmlLeaf)]
      else []) = [] := by
    split <;> rfl
  have h2 : List.filter (fun l => l.tag == "phoneme")
      (if jsTruthy e.phoneme then
        [(⟨"phoneme", sayAsAttrs e.phonemeSayAsType, e.phoneme.getD ""⟩ : XmlLeaf)]
      else []) =
      (if jsTruthy e.phoneme then
        [(⟨"phoneme", sayAsAttrs e.phonemeSayAsType, e.phoneme.getD ""⟩ : XmlLeaf)]
      else []) := by
    split <;> rfl
  rw [h1, h2]
  simp

theorem leafAttr_interpretAs (t txt : String) (o : Option String) :
    leafAttr ⟨t, sayAsAttrs o, txt⟩ "interpret-as" =
      (sayAsAttrs o).head?.map Prod.snd := by
  unfold leafAttr sayAsAttrs
  split <;> rfl

theorem sayAs_bind (o : Option String) :
    (sayAsAttrs o).head?.map Prod.snd =
      o.bind (fun v => (sayAsAttrs (some v)).head?.map Prod.snd) := by
  cases o with
  | none => rfl
  | some v => rfl

theorem map_text_mk (gs : List String) :
    List.map XmlLeaf.text (gs.map (fun g => (⟨"grapheme", [], g⟩ : XmlLeaf))) = gs := by
  induction gs with
  | nil => rfl
  | cons g t ih => simp [ih]

theorem normField_of_truthy_false {o : Option String} (h : jsTruthy o = false) :
    normField o = "" := by
  cases o with
  | none => rfl
  | some s =>
    unfold jsTruthy at h
    simp only [decide_eq_false_iff_not, not_not] at h
    rw [h]
    rfl

theorem parseXMLEntry_buildLexeme (e : LexiconEntry) :
    parseXMLEntry (buildLexeme e) = xmlNormEntry e := by
  unfold parseXMLEntry
  rw [findLeaves_build_grapheme, findLeaves_build_alias, findLeaves_build_phoneme]
  simp only []
  rw [map_text_mk]
  unfold xmlNormEntry
  by_cases ha : jsTruthy e.«alias» = true
  · by_cases hp : jsTruthy e.phoneme = true
    · rw [if_pos ha, if_pos hp]
      simp only [List.head?_cons, Option.some_bind]
      rw [leafAttr_interpretAs, leafAttr_interpretAs, sayAs_bind, sayAs_bind]
      rw [if_pos ha, if_pos hp]
      rfl
    · rw [if_pos ha, if_neg hp]
      have hp2 : jsTruthy e.phoneme = false := by
        revert hp
        cases jsTruthy e.phoneme <;> simp
      simp only [List.head?_cons, List.head?_nil, Option.some_bind]
      rw [leafAttr_interpretAs, sayAs_bind]
      rw [show (normField e.phoneme) = "" from normField_of_truthy_false hp2]
      rw [if_pos ha, if_neg hp]
      rfl
  · by_cases hp : jsTruthy e.phoneme = true
    · rw [if_neg ha, if_pos hp]
      have ha2 : jsTruthy e.«alias» = false := by
        revert ha
        cases jsTruthy e.«alias» <;> simp
      simp only [List.head?_cons, List.head?_nil, Option.some_bind]
      rw [leafAttr_interpretAs, sayAs_bind]
      rw [show (normField e.«alias») = "" from normField_of_truthy_false ha2]
      rw [if_neg ha, if_pos hp]
      rfl
    · rw [if_neg ha, if_neg hp]
      have ha2 : jsTruthy e.«alias» = false := by
        revert ha
        cases jsTruthy e.«alias» <;> simp
      have hp2 : jsTruthy e.phoneme = false := by
        revert hp
        cases jsTruthy e.phoneme <;> simp
      rw [show (normField e.«alias») = "" from normField_of_truthy_false ha2,
          show (normField e.phoneme) = "" from normField_of_truthy_false hp2]
      rw [if_neg ha, if_neg hp]
      rfl

theorem parseXML_buildXMLDoc (lang : String) (entries : List LexiconEntry) :
    parseXML (buildXMLDoc lang entries) = entries.map xmlNormEntry := by
  unfold parseXML buildXMLDoc
  simp only []
  have hf : List.filter (fun lx => lx.tag == "lexeme") (entries.map buildLexeme) =
      entries.map buildLexeme := by
    rw [List.filter_eq_self]
    intro lx hlx
    obtain ⟨e, _, hle⟩ := List.mem_map.mp hlx
    rw [← hle]
    rfl
  rw [hf, List.map_map]
  have hcomp : parseXMLEntry ∘ buildLexeme = xmlNormEntry := by
    funext e
    exact parseXMLEntry_buildLexeme e
  rw [hcomp]

/-! ### C8: view equalities and the claim -/

theorem normField_some (s : String) : normField (some s) = s := rfl

theorem normField_optField (s : String) : normField (optField s) = s := by
  unfold optField
  by_cases h : s = ""
  · rw [if_pos h, h]
    rfl
  · rw [if_neg h]
    rfl

theorem entryView_csvNormEntry (e : LexiconEntry) :
    entryView (csvNormEntry e) = entryView e := by
  show (e.graphemes, normField (optField (normField e.«alias»)),
        normField (optField (normField e.aliasSayAsType)),
        normField (optField (normField e.phoneme)),
        normField (optField (normField e.phonemeSayAsType))) = entryView e
  rw [normField_optField, normField_optField, normField_optField, normField_optField]
  rfl

theorem validSayAs_facts {v : String} (h : validSayAsTypes.contains v = true) :
    v ≠ "" ∧ jsTrim v = v := by
  have hm : v ∈ validSayAsTypes := by simpa using h
  fin_cases hm <;> exact ⟨by decide, by decide⟩

theorem sayAsAttrs_valid {v : String} (hne : v ≠ "") (htrim : jsTrim v = v)
    (hmem : validSayAsTypes.contains v = true) :
    sayAsAttrs (some v) = [("interpret-as", v)] := by
  unfold sayAsAttrs
  rw [if_pos]
  · rfl
  · have hm : v ∈ validSayAsTypes := by simpa using hmem
    simp [jsTruthy, htrim, hne, hm]

theorem xmlSayAsField_eq (truthyF : Bool) (o : Option String)
    (h : normField o = "" ∨
      (truthyF = true ∧ validSayAsTypes.contains (normField o) = true)) :
    (if truthyF = true then
       normField (o.bind (fun v => (sayAsAttrs (some v)).head?.map Prod.snd))
     else "") = normField o := by
  rcases h with hv | ⟨htr, hmem⟩
  · cases o with
    | none => split <;> rfl
    | some v =>
      have hv2 : v = "" := hv
      subst hv2
      split <;> rfl
  · rw [if_pos htr]
    cases o with
    | none => rfl
    | some v =>
      obtain ⟨hne, htrim⟩ := validSayAs_facts hmem
      have hne2 : v ≠ "" := hne
      have htrim2 : jsTrim v = v := htrim
      have hmem2 : validSayAsTypes.contains v = true := hmem
      rw [show (some v).bind (fun w => (sayAsAttrs (some w)).head?.map Prod.snd) =
          (sayAsAttrs (some v)).head?.map Prod.snd from rfl]
      rw [sayAsAttrs_valid hne2 htrim2 hmem2]
      rfl

theorem entryView_xmlNormEntry (e : LexiconEntry) (h : xmlSafeEntry e = true) :
    entryView (xmlNormEntry e) = entryView e := by
  unfold xmlSafeEntry at h
  simp only [Bool.and_eq_true, Bool.or_eq_true, beq_iff_eq] at h
  obtain ⟨hA, hP⟩ := h
  show (e.graphemes, normField (some (normField e.«alias»)),
        normField (some (if jsTruthy e.«alias» = true then
          normField (e.aliasSayAsType.bind
            (fun v => (sayAsAttrs (some v)).head?.map Prod.snd)) else "")),
        normField (some (normField e.phoneme)),
        normField (some (if jsTruthy e.phoneme = true then
          normField (e.phonemeSayAsType.bind
            (fun v => (sayAsAttrs (some v)).head?.map Prod.snd)) else ""))) = entryView e
  rw [normField_some, normField_some, normField_some, normField_some]
  rw [xmlSayAsField_eq (jsTruthy e.«alias») e.aliasSayAsType hA,
      xmlSayAsField_eq (jsTruthy e.phoneme) e.phonemeSayAsType hP]
  rfl

theorem map_congr_mem {α β : Type} (f g : α → β) :
    ∀ (l : List α), (∀ a ∈ l, f a = g a) → l.map f = l.map g := by
  intro l
  induction l with
  | nil => intro _; rfl
  | cons a t ih =>
    intro h
    simp only [List.map_cons]
    rw [h a (List.mem_cons_self _ _), ih (fun x hx => h x (List.mem_cons_of_mem _ hx))]

/-- C8: amended round trip.  The original claim (decode of encode preserves the
entry set under the content invariant alone) is false: CSV/TSV decoding groups
rows by the `alias|alias_say_as|phoneme|phoneme_say_as` key, so two entries
sharing that key collapse into one (see `C8_counterexample`).  Per codec, under
only the hypotheses its failure modes force — a non-empty list with
pairwise-distinct grouping keys, fields trim-normalised (the decoder trims
every field) and free of the codec's structural characters (newlines for CSV,
whose commas, quotes and carriage returns are round-tripped by the
`escapeCSV`/`parseCSVLine` quoting; tabs and newlines for TSV), graphemes
non-empty and not `#`-initial (`#` starts a comment line); and, for XML only,
say-as tags only on a truthy alias/phoneme and drawn from the fixed
vocabulary — decode of encode yields an entry list with the same
graphemes/alias/alias-say-as/phoneme/phoneme-say-as views in order: CSV and
TSV at the full string level, XML at the element-tree level (the external
`DOMParser`/`XMLSerializer` pair is outside the repository). -/
theorem C8_roundtrip_per_codec (entries : List LexiconEntry) (lang : String) :
    (entries ≠ [] → (∀ e ∈ entries, csvSafeEntry e = true) → keysDistinct entries →
      ∃ decoded, parseCSV (buildCSV entries) = .ok decoded ∧
        decoded.map entryView = entries.map entryView) ∧
    (entries ≠ [] → (∀ e ∈ entries, tsvSafeEntry e = true) → keysDistinct entries →
      ∃ decoded, parseTSV (buildTSV entries) = .ok decoded ∧
        decoded.map entryView = entries.map entryView) ∧
    ((∀ e ∈ entries, xmlSafeEntry e = true) →
      (parseXML (buildXMLDoc lang entries)).map entryView = entries.map entryView) := by
  refine ⟨?_, ?_, ?_⟩
  · intro hne hcsv hkeys
    refine ⟨entries.map csvNormEntry, parseCSV_buildCSV entries hne hcsv hkeys, ?_⟩
    rw [List.map_map]
    exact map_congr_mem _ _ entries (fun e _ => entryView_csvNormEntry e)
  · intro hne htsv hkeys
    refine ⟨entries.map csvNormEntry, parseTSV_buildTSV entries hne htsv hkeys, ?_⟩
    rw [List.map_map]
    exact map_congr_mem _ _ entries (fun e _ => entryView_csvNormEntry e)
  · intro hxml
    rw [parseXML_buildXMLDoc, List.map_map]
    exact map_congr_mem _ _ entries (fun e he => entryView_xmlNormEntry e (hxml e he))

/-- Counterexample to the claim as stated: both entries satisfy the content
invariant (a grapheme and a non-empty phoneme each), yet CSV decode of the
CSV encode collapses them into a single entry because they share the
`alias|alias_say_as|phoneme|phoneme_say_as` grouping key. -/
theorem C8_counterexample :
    (∀ e ∈ [(⟨["a"], none, none, some "p", none, false⟩ : LexiconEntry),
            ⟨["b"], none, none, some "p", none, false⟩],
      e.graphemes ≠ [] ∧ (jsTruthy e.«alias» = true ∨ jsTruthy e.phoneme = true)) ∧
    parseCSV (buildCSV [⟨["a"], none, none, some "p", none, false⟩,
                        ⟨["b"], none, none, some "p", none, false⟩]) =
      .ok [⟨["a", "b"], none, none, some "p", none, false⟩] ∧
    ¬ ([(⟨["a", "b"], none, none, some "p", none, false⟩ : LexiconEntry)].map entryView =
        [(⟨["a"], none, none, some "p", none, false⟩ : LexiconEntry),
         ⟨["b"], none, none, some "p", none, false⟩].map entryView) :=
  ⟨by decide, by rfl, by decide⟩

/-- Witness for the C8 round-trip theorem at a concrete two-entry library whose
second entry exercises the CSV quoting path (a comma in the grapheme and
quotes in the alias). -/
theorem C8_roundtrip_witness :
    (∃ decoded, parseCSV (buildCSV
        [⟨["hello"], some "world", none, some "wrld", none, false⟩,
         ⟨["a,b"], some "say \"hi\"", none, some "p", none, false⟩]) = .ok decoded ∧
      decoded.map entryView =
        [(⟨["hello"], some "world", none, some "wrld", none, false⟩ : LexiconEntry),
         ⟨["a,b"], some "say \"hi\"", none, some "p", none, false⟩].map entryView) ∧
    (∃ decoded, parseTSV (buildTSV
        [⟨["hello"], some "world", none, some "wrld", none, false⟩,
         ⟨["a,b"], some "say \"hi\"", none, some "p", none, false⟩]) = .ok decoded ∧
      decoded.map entryView =
        [(⟨["hello"], some "world", none, some "wrld", none, false⟩ : LexiconEntry),
         ⟨["a,b"], some "say \"hi\"", none, some "p", none, false⟩].map entryView) ∧
    (parseXML (buildXMLDoc "en-US"
        [⟨["hello"], some "world", none, some "wrld", none, false⟩,
         ⟨["a,b"], some "say \"hi\"", none, some "p", none, false⟩])).map entryView =
      [(⟨["hello"], some "world", none, some "wrld", none, false⟩ : LexiconEntry),
       ⟨["a,b"], some "say \"hi\"", none, some "p", none, false⟩].map entryView :=
  ⟨(C8_roundtrip_per_codec
      [⟨["hello"], some "world", none, some "wrld", none, false⟩,
       ⟨["a,b"], some "say \"hi\"", none, some "p", none, false⟩] "en-US").1
      (by decide) (by decide) (by decide),
   (C8_roundtrip_per_codec
      [⟨["hello"], some "world", none, some "wrld", none, false⟩,
       ⟨["a,b"], some "say \"hi\"", none, some "p", none, false⟩] "en-US").2.1
      (by decide) (by decide) (by decide),
   (C8_roundtrip_per_codec
      [⟨["hello"], some "world", none, some "wrld", none, false⟩,
       ⟨["a,b"], some "say \"hi\"", none, some "p", none, false⟩] "en-US").2.2
      (by decide)⟩

end Aca
